import Mathlib

/-!
Verification development for the video-transcript backend
(`server.py`, `transcript_extractor.py`, `whisper_manager.py`).

Strings are modelled as `List Char` (written `Str`).  The URL handling of
the code goes through CPython `urllib.parse` (`urlparse` / `geturl`), which
is modelled here faithfully after the CPython 3.11 source of
`urllib/parse.py` (functions `urlsplit`, `_splitnetloc`, `_splitparams`,
`urlparse`, `urlunsplit`, `urlunparse`).  `urlsplit` raises `ValueError`
for a netloc containing `[` without `]` or vice versa; this is modelled by
an `Option` result.  (The further host validation of bracketed IPv6 hosts
and the NFKC check for non-ASCII netlocs are not modelled; no theorem
below involves a bracketed or non-ASCII host, and on all other inputs the
model agrees with CPython.)
-/

namespace VT

abbrev Str := List Char

/-! ## Python string primitives -/

/-- Python substring containment, the `in` operator on `str`. -/
def strIn (sub s : Str) : Bool := decide (sub <:+: s)

/-- Characters removed by `str.lstrip(_WHATWG_C0_CONTROL_OR_SPACE)`:
code points `0x00`–`0x20`. -/
def isC0OrSpace (c : Char) : Bool := c.toNat ≤ 0x20

/-- `_UNSAFE_URL_BYTES_TO_REMOVE`: tab, carriage return, newline. -/
def isTabOrNewline (c : Char) : Bool := c == '\t' || c == '\r' || c == '\n'

/-- The sanitisation CPython `urlsplit` applies before parsing:
`url.lstrip(_WHATWG_C0_CONTROL_OR_SPACE)` followed by removal of
tab / CR / LF. -/
def sanitize (s : Str) : Str :=
  (s.dropWhile isC0OrSpace).filter (fun c => !isTabOrNewline c)

/-- ASCII lower-casing, as Python `str.lower()` acts on the ASCII
characters relevant here (scheme characters and the tested domains); the
definition is the code-point arithmetic of `Char.toLower`. -/
def pyLower (c : Char) : Char :=
  if 65 ≤ c.toNat ∧ c.toNat ≤ 90 then Char.ofNat (c.toNat + 32) else c

def isAsciiAlpha (c : Char) : Bool :=
  (65 ≤ c.toNat && c.toNat ≤ 90) || (97 ≤ c.toNat && c.toNat ≤ 122)

def isAsciiDigit (c : Char) : Bool := 48 ≤ c.toNat && c.toNat ≤ 57

/-- `scheme_chars` of `urllib.parse`: ASCII letters, digits, `+`, `-`, `.`. -/
def isSchemeChar (c : Char) : Bool :=
  isAsciiAlpha c || isAsciiDigit c || c == '+' || c == '-' || c == '.'

/-- Split a string at the first occurrence of marker `m`:
`(before, after)` with the marker removed; `(s, [])` if `m` is absent.
This is Python `s.split(m, 1)` combined with the `m in s` guard the
callers use. -/
def splitOnFirst (m : Char) (s : Str) : Str × Str :=
  (s.takeWhile (fun c => c != m), (s.dropWhile (fun c => c != m)).tail)

/-- `str.rstrip('/')`. -/
def rstripSlash : Str → Str
  | [] => []
  | c :: cs =>
    let r := rstripSlash cs
    if r = [] ∧ c = '/' then [] else c :: r

/-- Python `str.strip()` (whitespace strip; the ASCII whitespace class,
which is all that occurs in the texts of this development). -/
def isPySpace (c : Char) : Bool :=
  c == ' ' || c == '\t' || c == '\n' || c == '\r' || c == '\x0b' || c == '\x0c'

def pyStrip (s : Str) : Str :=
  ((s.dropWhile isPySpace).reverse.dropWhile isPySpace).reverse

/-! ## Model of CPython `urllib.parse` (3.11) -/

structure UrlParts where
  scheme : Str := []
  netloc : Str := []
  path : Str := []
  params : Str := []
  query : Str := []
  fragment : Str := []
deriving DecidableEq, Repr

/-- The scheme-candidate test of `urlsplit`: the text before the first `:`
must be nonempty, start with an ASCII letter and consist of scheme
characters. -/
def schemeOk : Str → Bool
  | [] => false
  | c :: cs => isAsciiAlpha c && (c :: cs).all isSchemeChar

/-- The scheme detection of `urlsplit`; the scheme is lower-cased. -/
def schemeSplit (url : Str) : Str × Str :=
  let (pre, post) := splitOnFirst ':' url
  if url.contains ':' && schemeOk pre then (pre.map pyLower, post)
  else ([], url)

/-- `_splitnetloc(url, 2)`: the netloc runs to the first `/`, `?` or `#`. -/
def isNetlocEnd (c : Char) : Bool := c == '/' || c == '?' || c == '#'

def splitnetloc (s : Str) : Str × Str :=
  (s.takeWhile (fun c => !isNetlocEnd c), s.dropWhile (fun c => !isNetlocEnd c))

/-- The `ValueError` check of `urlsplit`: `[` in the netloc without `]`,
or `]` without `[`. -/
def bracketOk (netloc : Str) : Bool :=
  !((netloc.contains '[' && !netloc.contains ']') ||
    (netloc.contains ']' && !netloc.contains '['))

/-- CPython `urlsplit` (with `allow_fragments=True`); `none` models the
`ValueError` on a bracket-mismatched netloc. -/
def urlsplit (url0 : Str) : Option UrlParts :=
  let url1 := sanitize url0
  let (scheme, url2) := schemeSplit url1
  let (netloc, url3) :=
    if url2.take 2 = ['/', '/'] then splitnetloc (url2.drop 2) else ([], url2)
  if bracketOk netloc then
    let (url4, fragment) := splitOnFirst '#' url3
    let (path, query) := splitOnFirst '?' url4
    some { scheme := scheme, netloc := netloc, path := path,
           query := query, fragment := fragment }
  else none

/-- `uses_params` of `urllib.parse` (3.11). -/
def usesParams : List Str :=
  [[], "ftp".data, "hdl".data, "prospero".data, "http".data, "imap".data,
   "https".data, "shttp".data, "rtsp".data, "rtsps".data, "rtspu".data,
   "sip".data, "sips".data, "mms".data, "sftp".data, "tel".data]

/-- `uses_netloc` of `urllib.parse` (3.11). -/
def usesNetloc : List Str :=
  [[], "ftp".data, "http".data, "gopher".data, "nntp".data, "telnet".data,
   "imap".data, "wais".data, "file".data, "mms".data, "https".data,
   "shttp".data, "snews".data, "prospero".data, "rtsp".data, "rtsps".data,
   "rtspu".data, "rsync".data, "svn".data, "svn+ssh".data, "sftp".data,
   "nfs".data, "git".data, "git+ssh".data, "ws".data, "wss".data]

/-- The part of a string after its last `/` (all of it when it has no
slash). -/
def afterLastSlash (s : Str) : Str :=
  (s.reverse.takeWhile (fun c => c != '/')).reverse

/-- The part of a string up to and including its last `/` (empty when it
has no slash). -/
def uptoLastSlash (s : Str) : Str :=
  (s.reverse.dropWhile (fun c => c != '/')).reverse

/-- `_splitparams`: split params off the last path segment.  Only invoked
by `urlparse` when `;` occurs in the path. -/
def splitparams (url : Str) : Str × Str :=
  if '/' ∈ url then
    let t := afterLastSlash url
    if ';' ∈ t then
      let (a, b) := splitOnFirst ';' t
      (uptoLastSlash url ++ a, b)
    else (url, [])
  else splitOnFirst ';' url

/-- CPython `urlparse`. -/
def urlparse (url : Str) : Option UrlParts :=
  (urlsplit url).map fun r =>
    if r.scheme ∈ usesParams ∧ ';' ∈ r.path then
      let (p, ps) := splitparams r.path
      { r with path := p, params := ps }
    else r

/-- CPython `urlunsplit` (3.11): re-attach `//` when there is a netloc, or
when the scheme customarily uses one and the path does not already start
with `//`. -/
def urlunsplit (scheme netloc url query fragment : Str) : Str :=
  let url :=
    if netloc ≠ [] ∨ (scheme ≠ [] ∧ scheme ∈ usesNetloc ∧ url.take 2 ≠ ['/', '/']) then
      let url := if url ≠ [] ∧ url.take 1 ≠ ['/'] then '/' :: url else url
      '/' :: '/' :: (netloc ++ url)
    else url
  let url := if scheme ≠ [] then scheme ++ ':' :: url else url
  let url := if query ≠ [] then url ++ '?' :: query else url
  if fragment ≠ [] then url ++ '#' :: fragment else url

/-- CPython `urlunparse` = `ParseResult.geturl`. -/
def urlunparse (r : UrlParts) : Str :=
  let u := if r.params ≠ [] then r.path ++ ';' :: r.params else r.path
  urlunsplit r.scheme r.netloc u r.query r.fragment

/-! ## `server.py` URL normalisation and platform identification -/

/-- `server._normalize_url`:
`urlparse(url)._replace(fragment="").geturl().rstrip("/")`.
`none` models the `ValueError` propagating out of `urlparse`. -/
def normalize_url (url : Str) : Option Str :=
  (urlparse url).map fun r => rstripSlash (urlunparse { r with fragment := [] })

/-- `WhisperTranscriptExtractor.identify_platform` (also reached through
`server._identify_platform`): lower-case the netloc and test domain
substrings.  `none` models the `ValueError` from `urlparse`. -/
def identify_platform (url : Str) : Option Str :=
  (urlparse url).map fun r =>
    let domain := r.netloc.map pyLower
    if strIn "youtube.com".data domain || strIn "youtu.be".data domain then
      "youtube".data
    else if strIn "tiktok.com".data domain then "tiktok".data
    else if strIn "facebook.com".data domain || strIn "fb.watch".data domain then
      "facebook".data
    else if strIn "douyin.com".data domain then "douyin".data
    else "unknown".data

/-! ## `transcript_extractor.py`: subtitle cleanup and extraction gates

The subprocess / network / filesystem collaborators of the extractor are
modelled as oracle inputs (environment records): the title file and the
subtitle files that `yt-dlp` leaves in the temp directory, the stdout of
the metadata call, the audio file produced by `extract_audio`, and the
text Whisper returns.  The pure logic (parsing, gating, result shapes) is
translated from the source. -/

/-- One Python-dict result value of the extractor methods; `none` fields
model absent keys (`"error" in result`, `result.get(key, default)`). -/
structure PyDict where
  error : Option Str := none
  success : Option Bool := none
  title : Option Str := none
  transcript : Option Str := none
  source : Option Str := none
  language : Option Str := none
deriving DecidableEq, Repr

theorem length_tail_dropWhile_lt (p : Char → Bool) (c : Char) (rest : List Char) :
    ((rest.dropWhile p).tail).length < (c :: rest).length := by
  have h1 : (rest.dropWhile p).length ≤ rest.length :=
    ((List.dropWhile_suffix p).sublist).length_le
  simp only [List.length_tail, List.length_cons]
  omega

/-- `re.sub(r'<[^>]+>', '', line)`: remove every `<...>` span with a
nonempty body (leftmost, non-overlapping). -/
def stripTags (s : Str) : Str :=
  match s with
  | [] => []
  | c :: rest =>
    if c = '<' ∧ rest.takeWhile (fun d => d != '>') ≠ [] ∧ '>' ∈ rest then
      stripTags ((rest.dropWhile (fun d => d != '>')).tail)
    else c :: stripTags rest
termination_by s.length
decreasing_by
  · exact length_tail_dropWhile_lt _ _ _
  · simp [Nat.lt_succ_self]

/-- Python `str.isdigit` (for the ASCII texts in play). -/
def pyIsDigit (s : Str) : Bool := s ≠ [] && s.all Char.isDigit

/-- `line.startswith(('WEBVTT', 'Kind:', 'Language:', 'NOTE', 'STYLE'))`. -/
def vttHeaderLine (line : Str) : Bool :=
  decide ("WEBVTT".data <+: line) || decide ("Kind:".data <+: line) ||
  decide ("Language:".data <+: line) || decide ("NOTE".data <+: line) ||
  decide ("STYLE".data <+: line)

/-- Loop body state of `_parse_vtt`: the `seen` set (as a duplicate-free
list) and the accumulated `lines`. -/
def parseVttStep (st : List Str × List Str) (line : Str) : List Str × List Str :=
  let (seen, lines) := st
  let line := pyStrip line
  if line = [] ∨ vttHeaderLine line ∨ strIn "-->".data line ∨ pyIsDigit line then
    (seen, lines)
  else
    let clean := pyStrip (stripTags line)
    if clean = [] then (seen, lines)
    else
      let (seen, lines) :=
        if seen.contains clean then (seen, lines) else (seen ++ [clean], lines ++ [clean])
      if seen.length > 200 then ([], lines) else (seen, lines)

/-- `WhisperTranscriptExtractor._parse_vtt`: VTT/SRT content to clean
plain text. -/
def parse_vtt (raw : Str) : Str :=
  let (_, lines) := (raw.splitOn '\n').foldl parseVttStep ([], [])
  List.intercalate ['\n'] lines

/-- The temp-directory contents `_check_subtitles` works from. -/
structure SubsEnv where
  titleFile : Option Str := none
  subFiles : List (Str × Str) := []

/-- `f.endswith(('.vtt', '.srt', '.ass'))`. -/
def subExtOk (f : Str) : Bool :=
  decide (".vtt".data <:+ f) || decide (".srt".data <:+ f) ||
  decide (".ass".data <:+ f)

/-- Subtitle-language detection: first of `vi`, `en` whose `.lang.` marker
occurs in the filename, else `auto`. -/
def subLang (f : Str) : Str :=
  if strIn ".vi.".data f then "vi".data
  else if strIn ".en.".data f then "en".data
  else "auto".data

/-- The file loop of `_check_subtitles`: first subtitle file whose cleaned
content is strictly longer than 20 characters wins. -/
def checkSubsLoop (title : Str) : List (Str × Str) → Option PyDict
  | [] => none
  | (f, raw) :: rest =>
    if subExtOk f then
      let content := parse_vtt raw
      if (pyStrip content).length > 20 then
        some { success := some true, title := some title, transcript := some content,
               source := some ("yt-dlp_subs_".data ++ subLang f),
               language := some (subLang f) }
      else checkSubsLoop title rest
    else checkSubsLoop title rest

/-- `WhisperTranscriptExtractor._check_subtitles` (the yt-dlp invocation
itself is a no-op on the model state; its effects are the `env` files). -/
def check_subtitles (env : SubsEnv) (videoId : Str) : Option PyDict :=
  let title := match env.titleFile with
    | some t => if pyStrip t = [] then videoId else pyStrip t
    | none => videoId
  checkSubsLoop title env.subFiles

/-- The file loop of `_check_tiktok_subtitles`. -/
def checkTiktokSubsLoop : List (Str × Str) → Option Str
  | [] => none
  | (f, raw) :: rest =>
    if subExtOk f then
      let content := parse_vtt raw
      if (pyStrip content).length > 20 then some content
      else checkTiktokSubsLoop rest
    else checkTiktokSubsLoop rest

/-- Environment of `_check_tiktok_subtitles`: whether yt-dlp exited 0, and
the files it left. -/
structure TkSubsEnv where
  rcZero : Bool := false
  files : List (Str × Str) := []

/-- `WhisperTranscriptExtractor._check_tiktok_subtitles`. -/
def check_tiktok_subtitles (env : TkSubsEnv) : Option Str :=
  if env.rcZero then checkTiktokSubsLoop env.files else none

/-- `transcribe_audio`: Whisper's text, stripped; `none` when the model is
unavailable or transcription failed. -/
def transcribe_audio (whisperText : Option Str) : Option Str :=
  whisperText.map pyStrip

/-- A character of the YouTube video-id class `[a-zA-Z0-9_-]`. -/
def isIdChar (c : Char) : Bool := c.isAlphanum || c == '_' || c == '-'

/-- Try the regex `(?:v=|/)([a-zA-Z0-9_-]{11})` at the head of `s`,
returning the captured group. -/
def ytIdHere (s : Str) : Option Str :=
  match s with
  | 'v' :: '=' :: rest =>
    let id := rest.take 11
    if id.length = 11 ∧ id.all isIdChar then some id else none
  | '/' :: rest =>
    let id := rest.take 11
    if id.length = 11 ∧ id.all isIdChar then some id else none
  | _ => none

/-- `re.search(r'(?:v=|/)([a-zA-Z0-9_-]{11})', url)`: leftmost match. -/
def findYtId : Str → Option Str
  | [] => none
  | c :: rest => (ytIdHere (c :: rest)).orElse fun _ => findYtId rest

/-- Collaborator results available to `extract_youtube`. -/
structure YtEnv where
  subs : SubsEnv := {}
  audioFile : Option Str := none
  whisperText : Option Str := none

/-- `WhisperTranscriptExtractor.extract_youtube`. -/
def extract_youtube (env : YtEnv) (url : Str) : PyDict :=
  match findYtId url with
  | none => { error := some "Invalid YouTube URL".data }
  | some vid =>
    match check_subtitles env.subs vid with
    | some r => r
    | none =>
      match env.audioFile with
      | some _ =>
        match transcribe_audio env.whisperText with
        | some t =>
          if t ≠ [] then
            { success := some true, title := some "YouTube Video (Audio Transcript)".data,
              transcript := some t, source := some "whisper_audio".data,
              language := some "auto".data }
          else { error := some "Could not extract subtitles or transcribe audio".data }
        | none => { error := some "Could not extract subtitles or transcribe audio".data }
      | none => { error := some "Could not extract subtitles or transcribe audio".data }

/-- Does `re.search(r'/video/(\d+)', url)` match at the head of `s`? -/
def tkIdHere (s : Str) : Bool :=
  decide ("/video/".data <+: s) && (s.drop 7).take 1 ≠ [] &&
  ((s.drop 7).take 1).all Char.isDigit

/-- `re.search(r'/video/(\d+)', url)` as a match test (the captured group
is never used by `extract_tiktok`). -/
def hasTkId : Str → Bool
  | [] => false
  | c :: rest => tkIdHere (c :: rest) || hasTkId rest

/-- Collaborator results available to `extract_tiktok`. -/
structure TkEnv where
  metaStdout : Option Str := none
  subs : TkSubsEnv := {}
  audioFile : Option Str := none
  whisperText : Option Str := none

/-- `WhisperTranscriptExtractor.extract_tiktok`. -/
def extract_tiktok (env : TkEnv) (url : Str) : PyDict :=
  if ¬ hasTkId url then { error := some "Could not find TikTok video ID".data }
  else
    match env.metaStdout with
    | none => { error := some "TikTok extraction failed".data }
    | some out =>
      let lines := (pyStrip out).splitOn '\n'
      let title := (lines.get? 0).getD []
      let uploader := (lines.get? 1).getD []
      let uploadDate := (lines.get? 2).getD []
      let metadata := title ++ ". Creator: @".data ++ uploader ++ ". Posted: ".data ++ uploadDate
      match check_tiktok_subtitles env.subs with
      | some subText =>
        if subText ≠ [] then
          { success := some true, title := some title,
            transcript := some (subText ++ "\n\n--- Metadata ---\n".data ++ metadata),
            source := some "yt-dlp_auto_subs+metadata".data,
            language := some "auto".data }
        else tiktokAudioFallback env title metadata
      | none => tiktokAudioFallback env title metadata
where
  /-- Audio-transcription fallback and metadata-only final fallback of
  `extract_tiktok`.  Note the length gate: `len(transcript.strip()) > 10`. -/
  tiktokAudioFallback (env : TkEnv) (title metadata : Str) : PyDict :=
    match env.audioFile with
    | some _ =>
      match transcribe_audio env.whisperText with
      | some t =>
        if t ≠ [] ∧ (pyStrip t).length > 10 then
          { success := some true, title := some title,
            transcript := some (t ++ "\n\n--- Metadata ---\n".data ++ metadata),
            source := some "whisper_audio+metadata".data,
            language := some "auto".data }
        else
          { success := some true, title := some title, transcript := some metadata,
            source := some "yt-dlp_metadata".data, language := some "auto".data }
      | none =>
        { success := some true, title := some title, transcript := some metadata,
          source := some "yt-dlp_metadata".data, language := some "auto".data }
    | none =>
      { success := some true, title := some title, transcript := some metadata,
        source := some "yt-dlp_metadata".data, language := some "auto".data }

/-- Try `/(?:videos|reel)/(\d+)` at the head of `s`. -/
def fbIdHere (s : Str) : Option Str :=
  if decide ("/videos/".data <+: s) then
    let ds := (s.drop 8).takeWhile Char.isDigit
    if ds ≠ [] then some ds else none
  else if decide ("/reel/".data <+: s) then
    let ds := (s.drop 6).takeWhile Char.isDigit
    if ds ≠ [] then some ds else none
  else none

/-- `re.search(r'/(?:videos|reel)/(\d+)', url)`: leftmost match. -/
def findFbId : Str → Option Str
  | [] => none
  | c :: rest => (fbIdHere (c :: rest)).orElse fun _ => findFbId rest

/-- Try `v=(\d+)` at the head of `s`. -/
def fbVIdHere (s : Str) : Option Str :=
  match s with
  | 'v' :: '=' :: rest =>
    let ds := rest.takeWhile Char.isDigit
    if ds ≠ [] then some ds else none
  | _ => none

/-- `re.search(r'v=(\d+)', url)`: leftmost match. -/
def findFbVId : Str → Option Str
  | [] => none
  | c :: rest => (fbVIdHere (c :: rest)).orElse fun _ => findFbVId rest

/-- Collaborator results available to `extract_facebook`. -/
structure FbEnv where
  resolveUrl : Option Str := none
  subs : SubsEnv := {}
  audioFile : Option Str := none
  whisperText : Option Str := none

/-- `WhisperTranscriptExtractor._resolve_facebook_url`. -/
def resolve_facebook_url (env : FbEnv) (url : Str) : Str :=
  if strIn "/share/v/".data url then
    match env.resolveUrl with
    | some r =>
      let resolved := r.takeWhile (fun c => c != '?')
      if resolved ≠ url then resolved else url
    | none => url
  else url

/-- `WhisperTranscriptExtractor.extract_facebook`. -/
def extract_facebook (env : FbEnv) (url0 : Str) : PyDict :=
  let url := resolve_facebook_url env url0
  let vid := match findFbId url with
    | some v => v
    | none => match findFbVId url with
      | some v => v
      | none => "facebook".data
  match check_subtitles env.subs vid with
  | some r => r
  | none =>
    match env.audioFile with
    | some _ =>
      match transcribe_audio env.whisperText with
      | some t =>
        if t ≠ [] then
          { success := some true, title := some "Facebook Video (Audio Transcript)".data,
            transcript := some t, source := some "whisper_audio".data,
            language := some "auto".data }
        else { error := some "Could not extract subtitles or transcribe Facebook audio".data }
      | none => { error := some "Could not extract subtitles or transcribe Facebook audio".data }
    | none => { error := some "Could not extract subtitles or transcribe Facebook audio".data }

/-! ## `whisper_manager.py`: singleton model manager

The module globals `_model_name`, `_model_future`, `_model` form the
state.  A pending `Future` is represented by the name it was submitted
for; resolving it consults the oracle `load : Str → Option Nat`
(`none` = the load raised).  Loaded model instances are abstract handles
(`Nat`). -/

structure WMState where
  modelName : Option Str := none
  modelFuture : Option Str := none
  model : Option Nat := none
deriving DecidableEq, Repr

/-- `whisper_manager.preload_model`. -/
def preload_model (name : Str) (st : WMState) : WMState :=
  if st.modelName = some name ∧ (st.model ≠ none ∨ st.modelFuture ≠ none) then st
  else { modelName := some name, model := none, modelFuture := some name }

/-- `whisper_manager.require_model`: returns the result
(`none` = failure sentinel) and the state after the call. -/
def require_model (load : Str → Option Nat) (name : Str) (st : WMState) :
    Option Nat × WMState :=
  if st.model ≠ none ∧ st.modelName = some name then (st.model, st)
  else
    let fut : Str :=
      if st.modelFuture ≠ none ∧ st.modelName = some name then st.modelFuture.getD name
      else name
    let st₁ : WMState :=
      if st.modelFuture ≠ none ∧ st.modelName = some name then st
      else { st with modelName := some name, modelFuture := some name }
    match load fut with
    | none => (none, { st₁ with modelFuture := none })
    | some m => (some m, { st₁ with model := some m, modelFuture := none })

/-! ## `server.py`: cache, transcription coordinator, jobs

Collaborators of `_do_transcribe` (the `requests.head` call inside
`expand_shortened_url`, and the four platform extractors) are oracles in
`SrvEnv`; every invocation of one is recorded as an event, so that
"no collaborator is invoked" is the statement that the event trace is
empty.  The wall-clock readings the code takes (`time.time()`) are the
fields of `Times`, in call order.  `CACHE_TTL` is the parameter `TTL`. -/

/-- A cached response / HTTP response body (the dict built by
`_do_transcribe`). -/
structure Resp where
  success : Bool := false
  error : Option Str := none
  title : Option Str := none
  transcript : Option Str := none
  source : Option Str := none
  language : Option Str := none
  platform : Option Str := none
  cached : Bool := false
  processing_time : Nat := 0
deriving DecidableEq, Repr

/-- The in-memory cache `_cache : {normalized_url: (timestamp, response)}`,
as an association list with unique keys. -/
abbrev Cache := List (Str × Nat × Resp)

def cacheLookup : Cache → Str → Option (Nat × Resp)
  | [], _ => none
  | (k, v) :: rest, key => if k = key then some v else cacheLookup rest key

def cacheInsert : Cache → Str → Nat × Resp → Cache
  | [], key, v => [(key, v)]
  | (k, w) :: rest, key, v =>
    if k = key then (k, v) :: rest else (k, w) :: cacheInsert rest key v

/-- `del _cache[key]`.  (A Python dict has unique keys; removal is
modelled as removing every pair with that key, which coincides on
duplicate-free association lists and keeps the lemmas below
hypothesis-free.) -/
def cacheErase : Cache → Str → Cache
  | [], _ => []
  | (k, w) :: rest, key =>
    if k = key then cacheErase rest key else (k, w) :: cacheErase rest key

/-- `server._cache_get`; `now` is the `time.time()` reading inside the
call.  `none` models the `ValueError` escaping `_normalize_url`. -/
def cache_get (TTL : Nat) (now : Nat) (c : Cache) (url : Str) :
    Option (Option Resp × Cache) :=
  (normalize_url url).map fun key =>
    match cacheLookup c key with
    | none => (none, c)
    | some (ts, data) => if now - ts > TTL then (none, cacheErase c key) else (some data, c)

/-- `server._cache_put`. -/
def cache_put (now : Nat) (c : Cache) (url : Str) (data : Resp) : Option Cache :=
  (normalize_url url).map fun key => cacheInsert c key (now, data)

/-- Collaborator invocations observable during `_do_transcribe`. -/
inductive Ev where
  | headRequest (url : Str)
  | extractorCall (platform url : Str)
deriving DecidableEq, Repr

/-- The collaborators of the server, as oracles.  `expandHead url` is the
final `response.url` of `requests.head(url, allow_redirects=True)`
(`none` = the request raised). -/
structure SrvEnv where
  expandHead : Str → Option Str
  extractYoutube : Str → PyDict
  extractTiktok : Str → PyDict
  extractFacebook : Str → PyDict
  extractDouyin : Str → PyDict

/-- `WhisperTranscriptExtractor.expand_shortened_url`, with its event
trace: the `requests.head` network call happens exactly when the URL
contains a `vt.tiktok.com` / `vm.tiktok.com` marker. -/
def expand_shortened_url (env : SrvEnv) (url : Str) : Str × List Ev :=
  if strIn "vt.tiktok.com".data url || strIn "vm.tiktok.com".data url then
    match env.expandHead url with
    | some resp => (resp.takeWhile (fun c => c != '?'), [Ev.headRequest url])
    | none => (url, [Ev.headRequest url])
  else (url, [])

/-- The `time.time()` readings of one `_do_transcribe` call, in order:
first cache check, `start`, second cache check, end-of-extraction,
cache store. -/
structure Times where
  tCheck1 : Nat := 0
  tStart : Nat := 0
  tCheck2 : Nat := 0
  tEnd : Nat := 0
  tPut : Nat := 0
deriving DecidableEq, Repr

/-- The platform dispatch of `_do_transcribe` (the `if platform ==` chain);
`none` is the unsupported-platform branch. -/
def dispatch (env : SrvEnv) (platform url : Str) : Option (PyDict × Ev) :=
  if platform = "youtube".data then
    some (env.extractYoutube url, Ev.extractorCall platform url)
  else if platform = "tiktok".data then
    some (env.extractTiktok url, Ev.extractorCall platform url)
  else if platform = "facebook".data then
    some (env.extractFacebook url, Ev.extractorCall platform url)
  else if platform = "douyin".data then
    some (env.extractDouyin url, Ev.extractorCall platform url)
  else none

/-- The success-response dict of `_do_transcribe` (note Python
`language or result.get("language", "auto")`: an empty or absent request
language falls back to the extractor's). -/
def build_success (platform : Str) (lang : Option Str) (result : PyDict)
    (elapsed : Nat) : Resp :=
  { success := true,
    title := some (result.title.getD []),
    transcript := some (result.transcript.getD []),
    source := some (result.source.getD []),
    language := some (match lang with
      | some l => if l ≠ [] then l else result.language.getD "auto".data
      | none => result.language.getD "auto".data),
    platform := some platform,
    cached := false,
    processing_time := elapsed }

/-- The part of `_do_transcribe` from the acquisition of
`_transcription_lock` on: cache re-check, dispatch, result shaping,
cache store.  Returns response, new cache and the events of this part. -/
def locked_section (TTL : Nat) (env : SrvEnv) (tm : Times) (cache : Cache)
    (url platform : Str) (lang : Option Str) : Option (Resp × Cache × List Ev) :=
  match cache_get TTL tm.tCheck2 cache url with
  | none => none
  | some (some r, c) => some ({ r with cached := true }, c, [])
  | some (none, c) =>
    match dispatch env platform url with
    | none =>
      some ({ success := false,
              error := some ("Unsupported platform: ".data ++ platform),
              cached := false, processing_time := tm.tEnd - tm.tStart }, c, [])
    | some (result, ev) =>
      let elapsed := tm.tEnd - tm.tStart
      match result.error with
      | some e =>
        some ({ success := false, error := some e, platform := some platform,
                cached := false, processing_time := elapsed }, c, [ev])
      | none =>
        let response := build_success platform lang result elapsed
        match cache_put tm.tPut c url response with
        | none => none
        | some c₂ => some (response, c₂, [ev])

/-- `server._do_transcribe`.  `none` models an uncaught exception
(`ValueError` from URL normalisation / platform identification). -/
def do_transcribe (TTL : Nat) (env : SrvEnv) (tm : Times) (cache : Cache)
    (url0 : Str) (lang : Option Str) : Option (Resp × Cache × List Ev) :=
  let (url, ev₀) := expand_shortened_url env url0
  match cache_get TTL tm.tCheck1 cache url with
  | none => none
  | some (some r, c) => some ({ r with cached := true }, c, ev₀)
  | some (none, c) =>
    match identify_platform url with
    | none => none
    | some platform =>
      (locked_section TTL env tm c url platform lang).map
        fun rce => (rce.1, rce.2.1, ev₀ ++ rce.2.2)

instance : DecidableEq (Resp × Cache × List Ev) :=
  fun a b => instDecidableEqProd a b

instance : DecidableEq (Nat × Resp × Cache × List Ev) :=
  fun a b => instDecidableEqProd a b

/-- `server.transcribe_sync` (the `/api/transcribe` endpoint): HTTP status
and response.  A missing or blank `url` is answered 400 before any other
work. -/
def transcribe_sync (TTL : Nat) (env : SrvEnv) (tm : Times) (cache : Cache)
    (urlField : Option Str) (lang : Option Str) :
    Option (Nat × Resp × Cache × List Ev) :=
  let url := pyStrip (urlField.getD [])
  if url = [] then
    some (400, { success := false, error := some "Missing \x27url\x27 field".data },
          cache, [])
  else
    (do_transcribe TTL env tm cache url lang).map
      fun rce => (if rce.1.success then 200 else 502, rce.1, rce.2.1, rce.2.2)

/-! ### Async jobs -/

inductive JobStatus where
  | processing
  | completed
deriving DecidableEq, Repr

structure Job where
  status : JobStatus
  result : Option Resp := none
  created_at : Nat := 0
deriving DecidableEq, Repr

/-- `server._jobs`, as an association list with unique keys. -/
abbrev Jobs := List (Str × Job)

def jobsLookup : Jobs → Str → Option Job
  | [], _ => none
  | (k, v) :: rest, key => if k = key then some v else jobsLookup rest key

def jobsInsert : Jobs → Str → Job → Jobs
  | [], key, v => [(key, v)]
  | (k, w) :: rest, key, v =>
    if k = key then (k, v) :: rest else (k, w) :: jobsInsert rest key v

/-- The job registration of `transcribe_async`: a fresh `processing` job. -/
def submit_job (jobs : Jobs) (jid : Str) (now : Nat) : Jobs :=
  jobsInsert jobs jid { status := JobStatus.processing, result := none, created_at := now }

/-- The worker-thread completion in `transcribe_async._run`; `none`
models the `KeyError` were the id absent (it never is: the worker runs
only after its own registration). -/
def complete_job (jobs : Jobs) (jid : Str) (r : Resp) : Option Jobs :=
  match jobsLookup jobs jid with
  | some j => some (jobsInsert jobs jid { j with status := JobStatus.completed, result := some r })
  | none => none

/-- What `get_job` answers. -/
inductive JobView where
  | notFound
  | processing (jid : Str)
  | completed (jid : Str) (r : Option Resp)
deriving DecidableEq, Repr

/-- `server.get_job` (the `/api/jobs/<job_id>` endpoint). -/
def get_job (jobs : Jobs) (jid : Str) : Nat × JobView :=
  match jobsLookup jobs jid with
  | none => (404, JobView.notFound)
  | some j =>
    match j.status with
    | JobStatus.processing => (200, JobView.processing jid)
    | JobStatus.completed => (200, JobView.completed jid j.result)

/-- The writes the server performs on the job map. -/
inductive JobOp where
  | submit (jid : Str) (now : Nat)
  | complete (jid : Str) (r : Resp)
deriving DecidableEq, Repr

def applyJobOp (jobs : Jobs) : JobOp → Option Jobs
  | JobOp.submit jid now => some (submit_job jobs jid now)
  | JobOp.complete jid r => complete_job jobs jid r

def runJobOps (jobs : Jobs) : List JobOp → Option Jobs
  | [] => some jobs
  | op :: rest =>
    match applyJobOp jobs op with
    | some jobs₁ => runJobOps jobs₁ rest
    | none => none

/-! # Theorems -/

/-! ## Association-list lemmas -/

theorem cacheLookup_insert (c : Cache) (k key : Str) (v : Nat × Resp) :
    cacheLookup (cacheInsert c key v) k =
      if k = key then some v else cacheLookup c k := by
  induction c with
  | nil =>
    by_cases hk : k = key
    · subst hk; simp [cacheInsert, cacheLookup]
    · simp [cacheInsert, cacheLookup, hk, Ne.symm hk]
  | cons hd tl ih =>
    obtain ⟨k₀, w⟩ := hd
    by_cases h₀ : k₀ = key
    · subst h₀
      by_cases hk : k = k₀
      · subst hk; simp [cacheInsert, cacheLookup]
      · simp [cacheInsert, cacheLookup, hk, Ne.symm hk]
    · by_cases hk : k = k₀
      · subst hk
        simp [cacheInsert, cacheLookup, h₀, Ne.symm h₀]
      · simp [cacheInsert, cacheLookup, h₀, hk, Ne.symm hk, ih]

theorem cacheLookup_erase (c : Cache) (k key : Str) :
    cacheLookup (cacheErase c key) k =
      if k = key then none else cacheLookup c k := by
  induction c with
  | nil =>
    by_cases hk : k = key
    · subst hk; simp [cacheErase, cacheLookup]
    · simp [cacheErase, cacheLookup, hk]
  | cons hd tl ih =>
    obtain ⟨k₀, w⟩ := hd
    by_cases h₀ : k₀ = key
    · subst h₀
      by_cases hk : k = k₀
      · subst hk; simp [cacheErase, cacheLookup, ih]
      · simp [cacheErase, cacheLookup, hk, Ne.symm hk, ih]
    · by_cases hk : k = k₀
      · subst hk
        simp [cacheErase, cacheLookup, h₀, Ne.symm h₀, ih]
      · simp [cacheErase, cacheLookup, h₀, hk, Ne.symm hk, ih]

theorem jobsLookup_insert (js : Jobs) (k key : Str) (v : Job) :
    jobsLookup (jobsInsert js key v) k =
      if k = key then some v else jobsLookup js k := by
  induction js with
  | nil =>
    by_cases hk : k = key
    · subst hk; simp [jobsInsert, jobsLookup]
    · simp [jobsInsert, jobsLookup, hk, Ne.symm hk]
  | cons hd tl ih =>
    obtain ⟨k₀, w⟩ := hd
    by_cases h₀ : k₀ = key
    · subst h₀
      by_cases hk : k = k₀
      · subst hk; simp [jobsInsert, jobsLookup]
      · simp [jobsInsert, jobsLookup, hk, Ne.symm hk]
    · by_cases hk : k = k₀
      · subst hk
        simp [jobsInsert, jobsLookup, h₀, Ne.symm h₀]
      · simp [jobsInsert, jobsLookup, h₀, hk, Ne.symm hk, ih]

/-- Claim C5, counterexample.  `_normalize_url` is not idempotent: for
`http://h/p?/` one pass yields `http://h/p?` (the query `/` is stripped as
a trailing slash, leaving an empty query marker), and a second pass drops
the now-empty `?`, yielding `http://h/p`. -/
theorem C5_counterexample :
    normalize_url "http://h/p?/".data = some "http://h/p?".data ∧
    normalize_url "http://h/p?".data = some "http://h/p".data ∧
    normalize_url "http://h/p?".data ≠ some "http://h/p?".data := by
  refine ⟨by decide, by decide, by decide⟩

/-- Claim C6, counterexample.  The two URLs do NOT get the same cache
key: `_normalize_url` strips the fragment and trailing slashes but keeps
the query string, so `https://x.com/v/1?a=1#frag` normalizes to
`https://x.com/v/1?a=1` while `https://x.com/v/1/` normalizes to
`https://x.com/v/1`. -/
theorem C6_counterexample :
    normalize_url "https://x.com/v/1?a=1#frag".data = some "https://x.com/v/1?a=1".data ∧
    normalize_url "https://x.com/v/1/".data = some "https://x.com/v/1".data ∧
    normalize_url "https://x.com/v/1?a=1#frag".data ≠
      normalize_url "https://x.com/v/1/".data := by
  refine ⟨by decide, by decide, by decide⟩

/-- Claim C6, amended: of the three differences named by the claim only
the fragment and the trailing slash are normalized away; the query is
preserved, so the two URLs map to distinct cache keys (a query-free
variant of the first URL does coincide with the second). -/
theorem C6_amended_keys :
    normalize_url "https://x.com/v/1?a=1#frag".data = some "https://x.com/v/1?a=1".data ∧
    normalize_url "https://x.com/v/1/".data = some "https://x.com/v/1".data ∧
    normalize_url "https://x.com/v/1#frag".data = some "https://x.com/v/1".data := by
  refine ⟨by decide, by decide, by decide⟩

/-- Claim C10, counterexample.  `identify_platform` is not total: it
calls `urlparse`, which raises `ValueError` on a netloc containing `[`
without `]` (modelled as `none`), e.g. for `http://[x/video`. -/
theorem C10_counterexample :
    identify_platform "http://[x/video".data = none := by decide

/-- Claim C7.  The claim is right and the code is wrong: after
`require_model("small")` succeeds and a subsequent
`require_model("large")` load fails, the failure path resets only
`_model_future`, leaving the stale `_model` (loaded for `"small"`)
paired with `_model_name == "large"`.  A retry `require_model("large")`
then takes the fast path and returns the `"small"` model instead of
starting a fresh load, and `preload_model("large")` is a no-op. -/
theorem C7_bug_stale_model_after_failed_load :
    (fun (load : Str → Option Nat) =>
      let afterSmall := (require_model load "small".data {}).2
      let failedLarge := require_model load "large".data afterSmall
      -- the load of "large" fails and returns the failure sentinel:
      failedLarge.1 = none ∧
      -- yet a retry for "large" returns the model loaded for "small",
      -- with no fresh load attempt (the state is unchanged):
      require_model load "large".data failedLarge.2 = (some 1, failedLarge.2) ∧
      -- and preload for "large" is a no-op instead of a fresh load:
      preload_model "large".data failedLarge.2 = failedLarge.2)
      (fun n => if n = "small".data then some 1 else none) := by
  refine ⟨by decide, by decide, by decide⟩

/-- Claim C4, counterexample.  The "too short" threshold is NOT the fixed
count 20 at every gate: the audio-transcription fallback of
`extract_tiktok` uses `len(transcript.strip()) > 10`, so a whisper
transcript of 15 characters — which the claim says must be rejected as
too short — is accepted and returned as a `whisper_audio+metadata`
success. -/
theorem C4_counterexample :
    (fun (env : TkEnv) =>
      let r := extract_tiktok env "https://www.tiktok.com/@u/video/123".data
      ("fifteen chars x".data.length ≤ 20) ∧
      r.success = some true ∧
      r.source = some "whisper_audio+metadata".data ∧
      r.transcript = some ("fifteen chars x\n\n--- Metadata ---\nT. Creator: @U. Posted: D".data))
      { metaStdout := some "T\nU\nD".data, subs := {},
        audioFile := some "a.wav".data, whisperText := some "fifteen chars x".data } := by
  refine ⟨by decide, by decide, by decide, by decide⟩

/-- Claim C1, counterexample.  A cached repeat request is not free of
collaborator calls for every URL: when the URL contains a
`vt.tiktok.com` / `vm.tiktok.com` marker, `_do_transcribe` first calls
`expand_shortened_url`, which performs a `requests.head` network call,
before the cache is consulted — even though the (expanded) URL is
served from the cache with `cached=true`. -/
theorem C1_counterexample :
    (fun (env : SrvEnv) (tm : Times) (r : Resp) =>
      do_transcribe 3600 env tm
          [("https://www.tiktok.com/@u/video/9".data, (100, r))]
          "https://vt.tiktok.com/ZS1".data none =
        some ({ r with cached := true },
              [("https://www.tiktok.com/@u/video/9".data, (100, r))],
              [Ev.headRequest "https://vt.tiktok.com/ZS1".data]) ∧
      [Ev.headRequest "https://vt.tiktok.com/ZS1".data] ≠ ([] : List Ev))
      { expandHead := fun _ => some "https://www.tiktok.com/@u/video/9?x=1".data,
        extractYoutube := fun _ => {}, extractTiktok := fun _ => {},
        extractFacebook := fun _ => {}, extractDouyin := fun _ => {} }
      { tCheck1 := 100, tStart := 101, tCheck2 := 101, tEnd := 101, tPut := 101 }
      { success := true, transcript := some "hello transcript".data,
        platform := some "tiktok".data } := by
  exact ⟨by decide, by decide⟩

/-- Claim C8, counterexample.  An unsupported-platform request does yield
`success=false` with error `Unsupported platform: unknown` and invokes no
collaborator, but `transcribe_sync` maps every `success=false` result to
HTTP 502 — a 5xx, not the 4xx-equivalent the claim asserts (only a
missing/blank `url` gets 400). -/
theorem C8_counterexample :
    (fun (env : SrvEnv) =>
      transcribe_sync 3600 env {} [] (some "https://example.com/video".data) none =
        some (502,
              { success := false,
                error := some "Unsupported platform: unknown".data,
                cached := false, processing_time := 0 },
              [], []) ∧
      (502 < 400 ∨ 500 ≤ 502))
      { expandHead := fun _ => none,
        extractYoutube := fun _ => {}, extractTiktok := fun _ => {},
        extractFacebook := fun _ => {}, extractDouyin := fun _ => {} } := by
  exact ⟨by decide, by decide⟩

/-- Claim C3, counterexample.  Two concurrent requests for the same
uncached URL do NOT always result in exactly one pipeline execution:
when the first execution fails (failures are not cached), the second
waiter's post-lock cache re-check misses and it dispatches the extractor
again — one `extractorCall` event in each request's trace.  (The first
request is the full `do_transcribe` run; the second raced past its own
pre-lock cache miss and its remaining behaviour is `locked_section`,
executed after the first request released the lock.) -/
theorem C3_counterexample :
    (fun (env : SrvEnv) (u : Str) =>
      do_transcribe 3600 env {} [] u none =
        some ({ success := false, error := some "boom".data,
                platform := some "youtube".data, cached := false,
                processing_time := 0 }, [],
              [Ev.extractorCall "youtube".data u]) ∧
      locked_section 3600 env {} [] u "youtube".data none =
        some ({ success := false, error := some "boom".data,
                platform := some "youtube".data, cached := false,
                processing_time := 0 }, [],
              [Ev.extractorCall "youtube".data u]))
      { expandHead := fun _ => none,
        extractYoutube := fun _ => { error := some "boom".data },
        extractTiktok := fun _ => {}, extractFacebook := fun _ => {},
        extractDouyin := fun _ => {} }
      "https://www.youtube.com/watch?v=abcdefghijk".data := by
  exact ⟨by decide, by decide⟩

/-- Claim C1, amended.  For every URL U that carries no shortened-URL
marker (`vt.tiktok.com` / `vm.tiktok.com`), once a response is stored for
U's cache key, a `_do_transcribe` call whose first cache check happens
within the TTL of the stored timestamp returns that stored response with
`cached := true`, leaves the cache untouched, and invokes no collaborator
at all (empty event trace); for marker-carrying URLs one
`requests.head` expansion call precedes even the cache check. -/
theorem C1_amended_cached_hit_no_collaborators
    (TTL : Nat) (env : SrvEnv) (tm : Times) (cache : Cache) (url : Str)
    (lang : Option Str) (k : Str) (ts : Nat) (r : Resp)
    (hvt : strIn "vt.tiktok.com".data url = false)
    (hvm : strIn "vm.tiktok.com".data url = false)
    (hk : normalize_url url = some k)
    (hhit : cacheLookup cache k = some (ts, r))
    (hfresh : tm.tCheck1 - ts ≤ TTL) :
    do_transcribe TTL env tm cache url lang =
      some ({ r with cached := true }, cache, []) := by
  have hexp : expand_shortened_url env url = (url, []) := by
    unfold expand_shortened_url
    simp [hvt, hvm]
  have hnogt : ¬ (tm.tCheck1 - ts > TTL) := by omega
  have hget : cache_get TTL tm.tCheck1 cache url = some (some r, cache) := by
    simp [cache_get, hk, hhit, hnogt]
  unfold do_transcribe
  simp only [hexp, hget]

/-- Witness for C1's amended theorem at a concrete input. -/
theorem C1_amended_witness :
    do_transcribe 3600
        { expandHead := fun _ => none, extractYoutube := fun _ => {},
          extractTiktok := fun _ => {}, extractFacebook := fun _ => {},
          extractDouyin := fun _ => {} }
        { tCheck1 := 150, tStart := 150, tCheck2 := 150, tEnd := 150, tPut := 150 }
        [("https://www.youtube.com/watch?v=abc".data,
          (100, { success := true, transcript := some "t".data }))]
        "https://www.youtube.com/watch?v=abc#x".data none =
      some ({ success := true, transcript := some "t".data, cached := true },
            [("https://www.youtube.com/watch?v=abc".data,
              (100, { success := true, transcript := some "t".data }))], []) :=
  C1_amended_cached_hit_no_collaborators 3600 _ _ _ _ none
    "https://www.youtube.com/watch?v=abc".data 100
    { success := true, transcript := some "t".data }
    (by decide) (by decide) (by decide) (by decide) (by decide)

/-- Claim C8, amended.  An unsupported-platform URL (no shortened-URL
marker, not in the cache) yields
`success=false, error="Unsupported platform: unknown"` without any
collaborator call and without running a pipeline, but `transcribe_sync`
surfaces it as HTTP 502 (the generic "we tried and failed" status), not
as a 4xx; only a missing/blank `url` field is answered 400. -/
theorem C8_amended_unsupported_is_502
    (TTL : Nat) (env : SrvEnv) (tm : Times) (cache : Cache)
    (urlv url : Str) (lang : Option Str) (k : Str)
    (hstrip : pyStrip urlv = url) (hne : url ≠ [])
    (hvt : strIn "vt.tiktok.com".data url = false)
    (hvm : strIn "vm.tiktok.com".data url = false)
    (hplat : identify_platform url = some "unknown".data)
    (hk : normalize_url url = some k)
    (hmiss : cacheLookup cache k = none) :
    transcribe_sync TTL env tm cache (some urlv) lang =
      some (502,
            { success := false,
              error := some "Unsupported platform: unknown".data,
              cached := false, processing_time := tm.tEnd - tm.tStart },
            cache, []) := by
  have hexp : expand_shortened_url env url = (url, []) := by
    unfold expand_shortened_url
    simp [hvt, hvm]
  have hget : ∀ now, cache_get TTL now cache url = some (none, cache) := by
    intro now
    simp [cache_get, hk, hmiss]
  have hd : dispatch env "unknown".data url = none := by
    unfold dispatch
    rw [if_neg (by decide), if_neg (by decide), if_neg (by decide), if_neg (by decide)]
  have hmsg : "Unsupported platform: ".data ++ "unknown".data =
      "Unsupported platform: unknown".data := by decide
  have hlock : locked_section TTL env tm cache url "unknown".data lang =
      some ({ success := false,
              error := some "Unsupported platform: unknown".data,
              cached := false, processing_time := tm.tEnd - tm.tStart }, cache, []) := by
    unfold locked_section
    simp only [hget, hd, hmsg]
  have hdo : do_transcribe TTL env tm cache url lang =
      some ({ success := false,
              error := some "Unsupported platform: unknown".data,
              cached := false, processing_time := tm.tEnd - tm.tStart }, cache, []) := by
    unfold do_transcribe
    simp only [hexp, hget, hplat, hlock, Option.map_some', List.nil_append]
  unfold transcribe_sync
  simp only [Option.getD_some, hstrip]
  rw [if_neg hne, hdo]
  rfl

/-- Witness for C8's amended theorem at a concrete input. -/
theorem C8_amended_witness :
    transcribe_sync 3600
        { expandHead := fun _ => none, extractYoutube := fun _ => {},
          extractTiktok := fun _ => {}, extractFacebook := fun _ => {},
          extractDouyin := fun _ => {} }
        { tCheck1 := 7, tStart := 7, tCheck2 := 7, tEnd := 9, tPut := 9 } []
        (some " https://example.com/video ".data) none =
      some (502,
            { success := false,
              error := some "Unsupported platform: unknown".data,
              cached := false, processing_time := 2 },
            [], []) :=
  C8_amended_unsupported_is_502 3600 _ _ [] " https://example.com/video ".data
    "https://example.com/video".data none "https://example.com/video".data
    (by decide) (by decide) (by decide) (by decide) (by decide) (by decide) (by decide)

/-- Claim C10, amended.  Whenever `urlparse` succeeds (it raises
`ValueError` on a bracket-mismatched host, so `identify_platform` is not
total), `identify_platform` returns exactly one of the five tags, and it
returns `unknown` precisely when none of the six recognised domain
substrings occurs in the lower-cased netloc.  Determinism is inherent:
the model is a pure function of the URL. -/
theorem C10_amended_five_tags
    (url : Str) (r : UrlParts) (h : urlparse url = some r) :
    ∃ tag, identify_platform url = some tag ∧
      (tag = "youtube".data ∨ tag = "tiktok".data ∨ tag = "facebook".data ∨
       tag = "douyin".data ∨ tag = "unknown".data) ∧
      (tag = "unknown".data ↔
       (strIn "youtube.com".data (r.netloc.map pyLower) = false ∧
        strIn "youtu.be".data (r.netloc.map pyLower) = false ∧
        strIn "tiktok.com".data (r.netloc.map pyLower) = false ∧
        strIn "facebook.com".data (r.netloc.map pyLower) = false ∧
        strIn "fb.watch".data (r.netloc.map pyLower) = false ∧
        strIn "douyin.com".data (r.netloc.map pyLower) = false)) := by
  unfold identify_platform
  rw [h]
  simp only [Option.map_some']
  refine ⟨_, rfl, ?_, ?_⟩
  · split_ifs <;> simp
  · split_ifs with hA hB hC hD
    · constructor
      · intro he
        exact absurd he (by decide)
      · rintro ⟨h1, h2, _, _, _, _⟩
        simp [h1, h2] at hA
    · constructor
      · intro he
        exact absurd he (by decide)
      · rintro ⟨_, _, h3, _, _, _⟩
        simp [h3] at hB
    · constructor
      · intro he
        exact absurd he (by decide)
      · rintro ⟨_, _, _, h4, h5, _⟩
        simp [h4, h5] at hC
    · constructor
      · intro he
        exact absurd he (by decide)
      · rintro ⟨_, _, _, _, _, h6⟩
        simp [h6] at hD
    · simp only [Bool.or_eq_true, not_or, Bool.not_eq_true] at hA hB hC hD
      exact ⟨fun _ => ⟨hA.1, hA.2, hB, hC.1, hC.2, hD⟩, fun _ => rfl⟩

/-- Witness for C10's amended theorem at a concrete input. -/
theorem C10_amended_witness :
    ∃ tag, identify_platform "https://example.com/video".data = some tag ∧
      (tag = "youtube".data ∨ tag = "tiktok".data ∨ tag = "facebook".data ∨
       tag = "douyin".data ∨ tag = "unknown".data) ∧
      (tag = "unknown".data ↔
       (strIn "youtube.com".data
          (({ scheme := "https".data, netloc := "example.com".data,
              path := "/video".data } : UrlParts).netloc.map pyLower) = false ∧
        strIn "youtu.be".data ("example.com".data.map pyLower) = false ∧
        strIn "tiktok.com".data ("example.com".data.map pyLower) = false ∧
        strIn "facebook.com".data ("example.com".data.map pyLower) = false ∧
        strIn "fb.watch".data ("example.com".data.map pyLower) = false ∧
        strIn "douyin.com".data ("example.com".data.map pyLower) = false)) :=
  C10_amended_five_tags "https://example.com/video".data
    { scheme := "https".data, netloc := "example.com".data, path := "/video".data }
    (by decide)

/-- Claim C4, amended.  The fixed 20-character "too short" gate holds at
the subtitle checks only: `_check_subtitles` and `_check_tiktok_subtitles`
accept a cleaned caption exactly when its stripped length exceeds 20 (so
21 characters pass, 20 or fewer are rejected).  The audio-transcription
fallbacks use different gates: `extract_tiktok` accepts a stripped
transcript of length strictly greater than 10, and the audio fallbacks of
`extract_youtube` / `extract_facebook` accept any nonempty stripped
transcript. -/
theorem C4_amended_length_gates :
    (∀ (tf : Option Str) (vid f raw : Str), subExtOk f = true →
      (check_subtitles { titleFile := tf, subFiles := [(f, raw)] } vid).isSome =
        decide ((pyStrip (parse_vtt raw)).length > 20)) ∧
    (∀ (f raw : Str), subExtOk f = true →
      (check_tiktok_subtitles { rcZero := true, files := [(f, raw)] }).isSome =
        decide ((pyStrip (parse_vtt raw)).length > 20)) ∧
    (∀ (m a w url : Str), hasTkId url = true →
      ((extract_tiktok { metaStdout := some m, subs := {}, audioFile := some a,
                         whisperText := some w } url).source =
          some "whisper_audio+metadata".data ↔
        (pyStrip w ≠ [] ∧ (pyStrip (pyStrip w)).length > 10))) ∧
    (∀ (a w url vid : Str), findYtId url = some vid →
      ((extract_youtube { subs := {}, audioFile := some a,
                          whisperText := some w } url).success = some true ↔
        pyStrip w ≠ [])) ∧
    (∀ (a w url : Str),
      ((extract_facebook { resolveUrl := none, subs := {}, audioFile := some a,
                           whisperText := some w } url).success = some true ↔
        pyStrip w ≠ [])) := by
  refine ⟨?_, ?_, ?_, ?_, ?_⟩
  · intro tf vid f raw hf
    unfold check_subtitles checkSubsLoop
    by_cases hg : (pyStrip (parse_vtt raw)).length > 20 <;>
      simp [hf, hg, checkSubsLoop]
  · intro f raw hf
    unfold check_tiktok_subtitles checkTiktokSubsLoop
    by_cases hg : (pyStrip (parse_vtt raw)).length > 20 <;>
      simp [hf, hg, checkTiktokSubsLoop]
  · intro m a w url hid
    have hne₁ : ("yt-dlp_metadata".data : Str) ≠ "whisper_audio+metadata".data := by
      decide
    by_cases hg : pyStrip w = []
    · simp [extract_tiktok, extract_tiktok.tiktokAudioFallback, check_tiktok_subtitles,
            transcribe_audio, hid, hg, hne₁]
    · by_cases hlen : (pyStrip (pyStrip w)).length > 10
      · simp [extract_tiktok, extract_tiktok.tiktokAudioFallback, check_tiktok_subtitles,
              transcribe_audio, hid, hg, hlen]
      · simp [extract_tiktok, extract_tiktok.tiktokAudioFallback, check_tiktok_subtitles,
              transcribe_audio, hid, hg, hlen, hne₁]
  · intro a w url vid hid
    have hsubs : ∀ v, check_subtitles ({} : SubsEnv) v = none := fun _ => rfl
    by_cases hg : pyStrip w = [] <;>
      simp [extract_youtube, transcribe_audio, hid, hsubs, hg]
  · intro a w url
    have hsubs : ∀ v, check_subtitles ({} : SubsEnv) v = none := fun _ => rfl
    by_cases hg : pyStrip w = [] <;>
      simp [extract_facebook, transcribe_audio, hsubs, hg]

/-- Witness for C4's amended theorem at concrete inputs: a 21-character
caption passes the subtitle gate, a 20-character one does not; an
11-character stripped transcript passes the TikTok audio gate; a
1-character transcript passes the YouTube audio gate. -/
theorem C4_amended_witness :
    ((check_subtitles
        { titleFile := none,
          subFiles := [(".vtt".data, "abcdefghij abcdefghij".data)] } "v".data).isSome =
      decide ((pyStrip (parse_vtt "abcdefghij abcdefghij".data)).length > 20)) ∧
    ((check_tiktok_subtitles
        { rcZero := true,
          files := [(".vtt".data, "abcdefghij abcdefghi".data)] }).isSome =
      decide ((pyStrip (parse_vtt "abcdefghij abcdefghi".data)).length > 20)) ∧
    ((extract_tiktok
        { metaStdout := some "T".data, subs := {},
          audioFile := some "a".data, whisperText := some "12345678901".data }
        "https://www.tiktok.com/@u/video/1".data).source =
          some "whisper_audio+metadata".data ↔
      (pyStrip "12345678901".data ≠ [] ∧
       (pyStrip (pyStrip "12345678901".data)).length > 10)) ∧
    ((extract_youtube
        { subs := {}, audioFile := some "a".data,
          whisperText := some "x".data }
        "https://www.youtube.com/watch?v=abcdefghijk".data).success = some true ↔
      pyStrip "x".data ≠ []) :=
  ⟨C4_amended_length_gates.1 none "v".data ".vtt".data
      "abcdefghij abcdefghij".data (by decide),
   C4_amended_length_gates.2.1 ".vtt".data "abcdefghij abcdefghi".data (by decide),
   C4_amended_length_gates.2.2.1 "T".data "a".data "12345678901".data
      "https://www.tiktok.com/@u/video/1".data (by decide),
   C4_amended_length_gates.2.2.2.1 "a".data "x".data
      "https://www.youtube.com/watch?v=abcdefghijk".data "abcdefghijk".data (by decide)⟩

/-- Claim C9.  Async job lifecycle: (1) immediately after submission the
job polls as `processing`; (2) the worker's single completion succeeds
and the job then polls as `completed` with the result attached; (3) a
completed job is never reopened: any further server writes that do not
target its id (fresh ids for submissions, one completion per job) leave
it completed with the same result; (4) polling an unknown id returns the
404 not-found response — `get_job` is total, never a crash. -/
theorem C9_job_lifecycle :
    (∀ (jobs : Jobs) (jid : Str) (now : Nat),
        get_job (submit_job jobs jid now) jid = (200, JobView.processing jid)) ∧
    (∀ (jobs : Jobs) (jid : Str) (now : Nat) (r : Resp),
        complete_job (submit_job jobs jid now) jid r =
          some (jobsInsert (submit_job jobs jid now) jid
            { status := JobStatus.completed, result := some r, created_at := now }) ∧
        get_job (jobsInsert (submit_job jobs jid now) jid
            { status := JobStatus.completed, result := some r, created_at := now }) jid =
          (200, JobView.completed jid (some r))) ∧
    (∀ (jobs jobs' : Jobs) (jid : Str) (j : Job) (ops : List JobOp),
        jobsLookup jobs jid = some j → j.status = JobStatus.completed →
        (∀ t, JobOp.submit jid t ∉ ops) → (∀ r, JobOp.complete jid r ∉ ops) →
        runJobOps jobs ops = some jobs' →
        jobsLookup jobs' jid = some j) ∧
    (∀ (jobs : Jobs) (jid : Str), jobsLookup jobs jid = none →
        get_job jobs jid = (404, JobView.notFound)) := by
  refine ⟨?_, ?_, ?_, ?_⟩
  · intro jobs jid now
    unfold get_job submit_job
    rw [jobsLookup_insert]
    simp
  · intro jobs jid now r
    constructor
    · unfold complete_job submit_job
      rw [jobsLookup_insert]
      simp
    · unfold get_job
      rw [jobsLookup_insert]
      simp
  · intro jobs jobs' jid j ops
    induction ops generalizing jobs with
    | nil =>
      intro hj _ _ _ hrun
      simp only [runJobOps] at hrun
      rw [← Option.some_inj.mp hrun]
      exact hj
    | cons op rest ih =>
      intro hj hst hsub hcom hrun
      cases op with
      | submit jid' t =>
        have hne : jid' ≠ jid := by
          intro h
          subst h
          exact hsub t (List.mem_cons_self _ _)
        simp only [runJobOps, applyJobOp] at hrun
        refine ih _ ?_ hst (fun t ht => hsub t (List.mem_cons_of_mem _ ht))
          (fun r hr => hcom r (List.mem_cons_of_mem _ hr)) hrun
        unfold submit_job
        rw [jobsLookup_insert, if_neg (fun h => hne h.symm)]
        exact hj
      | complete jid' r =>
        have hne : jid' ≠ jid := by
          intro h
          subst h
          exact hcom r (List.mem_cons_self _ _)
        simp only [runJobOps, applyJobOp, complete_job] at hrun
        cases hl : jobsLookup jobs jid' with
        | none => rw [hl] at hrun; simp at hrun
        | some j' =>
          rw [hl] at hrun
          simp only [] at hrun
          refine ih _ ?_ hst (fun t ht => hsub t (List.mem_cons_of_mem _ ht))
            (fun r' hr => hcom r' (List.mem_cons_of_mem _ hr)) hrun
          rw [jobsLookup_insert, if_neg (fun h => hne h.symm)]
          exact hj
  · intro jobs jid h
    unfold get_job
    rw [h]

/-- Witness for C9 at concrete inputs. -/
theorem C9_witness :
    get_job (submit_job [] "ab12".data 5) "ab12".data =
      (200, JobView.processing "ab12".data) ∧
    jobsLookup [("ab12".data,
        { status := JobStatus.completed, result := some {}, created_at := 5 })]
      "ab12".data =
      some { status := JobStatus.completed, result := some {}, created_at := 5 } ∧
    get_job [] "zz".data = (404, JobView.notFound) :=
  ⟨C9_job_lifecycle.1 [] "ab12".data 5,
   C9_job_lifecycle.2.2.1
     [("ab12".data, { status := JobStatus.completed, result := some {}, created_at := 5 })]
     [("ab12".data, { status := JobStatus.completed, result := some {}, created_at := 5 }),
      ("cd34".data, { status := JobStatus.processing, result := none, created_at := 6 })]
     "ab12".data
     { status := JobStatus.completed, result := some {}, created_at := 5 }
     [JobOp.submit "cd34".data 6]
     (by decide) rfl
     (by intro t ht; simp at ht)
     (by intro r hr; simp at hr)
     (by decide),
   C9_job_lifecycle.2.2.2 [] "zz".data rfl⟩

/-- Characterisation of a `_cache_get` miss: either the key is absent and
the cache is untouched, or the entry had expired and exactly that key was
deleted. -/
theorem cache_get_none_cases (TTL now : Nat) (c c₁ : Cache) (url : Str)
    (h : cache_get TTL now c url = some (none, c₁)) :
    ∃ k, normalize_url url = some k ∧
      ((cacheLookup c k = none ∧ c₁ = c) ∨
       (∃ ts r, cacheLookup c k = some (ts, r) ∧ now - ts > TTL ∧
          c₁ = cacheErase c k)) := by
  unfold cache_get at h
  cases hn : normalize_url url with
  | none => rw [hn] at h; simp at h
  | some k =>
    rw [hn] at h
    simp only [Option.map_some', Option.some_inj] at h
    refine ⟨k, rfl, ?_⟩
    cases hl : cacheLookup c k with
    | none =>
      rw [hl] at h
      simp only [] at h
      exact Or.inl ⟨rfl, (Prod.mk.injEq _ _ _ _).mp h |>.2.symm⟩
    | some tsr =>
      obtain ⟨ts, r⟩ := tsr
      rw [hl] at h
      simp only [] at h
      by_cases hex : now - ts > TTL
      · rw [if_pos hex] at h
        exact Or.inr ⟨ts, r, rfl, hex,
          ((Prod.mk.injEq _ _ _ _).mp h).2.symm⟩
      · rw [if_neg hex] at h
        exact absurd ((Prod.mk.injEq _ _ _ _).mp h).1 (by simp)

/-- Characterisation of a `_cache_get` hit: the cache is untouched and
the entry is present and fresh. -/
theorem cache_get_some_cases (TTL now : Nat) (c c₁ : Cache) (url : Str) (r : Resp)
    (h : cache_get TTL now c url = some (some r, c₁)) :
    c₁ = c ∧ ∃ k ts, normalize_url url = some k ∧
      cacheLookup c k = some (ts, r) ∧ ¬ (now - ts > TTL) := by
  unfold cache_get at h
  cases hn : normalize_url url with
  | none => rw [hn] at h; simp at h
  | some k =>
    rw [hn] at h
    simp only [Option.map_some', Option.some_inj] at h
    cases hl : cacheLookup c k with
    | none =>
      rw [hl] at h
      simp at h
    | some tsr =>
      obtain ⟨ts, r'⟩ := tsr
      rw [hl] at h
      simp only [] at h
      by_cases hex : now - ts > TTL
      · rw [if_pos hex] at h
        simp at h
      · rw [if_neg hex] at h
        obtain ⟨h1, h2⟩ := (Prod.mk.injEq _ _ _ _).mp h
        refine ⟨h2.symm, k, ts, rfl, ?_, hex⟩
        rw [hl, Option.some_inj.mp h1]

/-- Claim C2.  When `_do_transcribe` produces a failure result
(`success=false`, including extractor errors and unsupported platforms),
nothing is stored: (a) in general, every cache entry after a run was
either already present or is the freshly stored successful response of a
successful run — only successes are ever stored; after a failure run
additionally (b) the request's key is absent from the cache (so an
identical later request runs the full pipeline again), (c) no entry was
added anywhere, and (d) any entry that disappeared was already
TTL-expired at one of the two cache checks (the cache is unchanged up to
lazily-expired entries, which the data model treats as absent). -/
theorem C2_failures_not_cached
    (TTL : Nat) (env : SrvEnv) (tm : Times) (cache : Cache) (url : Str)
    (lang : Option Str) (res : Resp) (c' : Cache) (evs : List Ev)
    (hinv : ∀ k ts r, cacheLookup cache k = some (ts, r) → r.success = true)
    (hrun : do_transcribe TTL env tm cache url lang = some (res, c', evs)) :
    (∀ k ts r, cacheLookup c' k = some (ts, r) →
        cacheLookup cache k = some (ts, r) ∨ (r.success = true ∧ res.success = true)) ∧
    (res.success = false →
      (∀ k, normalize_url (expand_shortened_url env url).1 = some k →
          cacheLookup c' k = none) ∧
      (∀ k ts r, cacheLookup c' k = some (ts, r) → cacheLookup cache k = some (ts, r)) ∧
      (∀ k ts r, cacheLookup cache k = some (ts, r) → cacheLookup c' k = none →
          (tm.tCheck1 - ts > TTL ∨ tm.tCheck2 - ts > TTL))) := by
  rcases hpe : expand_shortened_url env url with ⟨u1, ev0⟩
  unfold do_transcribe at hrun
  rw [hpe] at hrun
  simp only [] at hrun
  cases hget1 : cache_get TTL tm.tCheck1 cache u1 with
  | none => rw [hget1] at hrun; simp at hrun
  | some p =>
    obtain ⟨ores, c1⟩ := p
    rw [hget1] at hrun
    cases ores with
    | some r =>
      -- first-check hit: the cache is untouched and the response succeeds
      simp only [Option.some_inj, Prod.mk.injEq] at hrun
      obtain ⟨hres, hc', _⟩ := hrun
      obtain ⟨hc1, k, ts, hk, hl, _⟩ := cache_get_some_cases _ _ _ _ _ _ hget1
      subst hc1
      have hsucc : r.success = true := hinv k ts r hl
      constructor
      · intro k' ts' r' hl'
        rw [← hc'] at hl'
        exact Or.inl hl'
      · intro hfail
        rw [← hres] at hfail
        simp only [] at hfail
        rw [hsucc] at hfail
        cases hfail
    | none =>
      -- first-check miss
      simp only [] at hrun
      obtain ⟨k, hk, hcase1⟩ := cache_get_none_cases _ _ _ _ _ hget1
      cases hid : identify_platform u1 with
      | none => rw [hid] at hrun; simp at hrun
      | some platform =>
        rw [hid] at hrun
        simp only [Option.map_eq_some'] at hrun
        obtain ⟨⟨res', c'', ev1⟩, hlock, heq⟩ := hrun
        simp only [Prod.mk.injEq] at heq
        obtain ⟨hres, hc', _⟩ := heq
        -- the second check misses too: the first miss left no entry at k
        have hnolk : cacheLookup c1 k = none := by
          rcases hcase1 with ⟨hnone, hc1⟩ | ⟨ts, r, _, _, hc1⟩
          · rw [hc1]; exact hnone
          · rw [hc1, cacheLookup_erase, if_pos rfl]
        unfold locked_section at hlock
        cases hget2 : cache_get TTL tm.tCheck2 c1 u1 with
        | none => rw [hget2] at hlock; simp at hlock
        | some q =>
          obtain ⟨ores2, c2⟩ := q
          rw [hget2] at hlock
          cases ores2 with
          | some r2 =>
            obtain ⟨_, k2, ts2, hk2, hl2, _⟩ := cache_get_some_cases _ _ _ _ _ _ hget2
            rw [hk] at hk2
            rw [Option.some_inj.mp hk2.symm] at hl2
            rw [hnolk] at hl2
            cases hl2
          | none =>
            -- characterise the second miss: the cache is untouched
            have hc2 : c2 = c1 := by
              obtain ⟨k2, hk2, hcase2⟩ := cache_get_none_cases _ _ _ _ _ hget2
              rw [hk] at hk2
              rcases hcase2 with ⟨_, h⟩ | ⟨ts2, r2, hl2, _, _⟩
              · exact h
              · rw [Option.some_inj.mp hk2.symm] at hl2
                rw [hnolk] at hl2
                cases hl2
            rw [hc2] at hlock
            simp only [] at hlock
            -- common facts about c1
            have hsub1 : ∀ k' ts' r', cacheLookup c1 k' = some (ts', r') →
                cacheLookup cache k' = some (ts', r') := by
              intro k' ts' r' hl'
              rcases hcase1 with ⟨_, hc1⟩ | ⟨ts, r, _, _, hc1⟩
              · rw [hc1] at hl'; exact hl'
              · rw [hc1, cacheLookup_erase] at hl'
                by_cases hkk : k' = k
                · rw [if_pos hkk] at hl'; cases hl'
                · rw [if_neg hkk] at hl'; exact hl'
            have hexp1 : ∀ k' ts' r', cacheLookup cache k' = some (ts', r') →
                cacheLookup c1 k' = none → tm.tCheck1 - ts' > TTL := by
              intro k' ts' r' hl' hn'
              rcases hcase1 with ⟨_, hc1⟩ | ⟨ts, r, hl, hex, hc1⟩
              · rw [hc1] at hn'; rw [hl'] at hn'; cases hn'
              · rw [hc1, cacheLookup_erase] at hn'
                by_cases hkk : k' = k
                · subst hkk
                  rw [hl'] at hl
                  obtain ⟨h1, h2⟩ := Prod.mk.injEq _ _ _ _ |>.mp (Option.some_inj.mp hl)
                  omega
                · rw [if_neg hkk] at hn'; rw [hl'] at hn'; cases hn'
            cases hdisp : dispatch env platform u1 with
            | none =>
              rw [hdisp] at hlock
              simp only [Option.some_inj, Prod.mk.injEq] at hlock
              obtain ⟨hres', hc'', _⟩ := hlock
              rw [← hc''] at hc'
              constructor
              · intro k' ts' r' hl'
                rw [← hc'] at hl'
                exact Or.inl (hsub1 _ _ _ hl')
              · intro _
                refine ⟨?_, ?_, ?_⟩
                · intro k' hk'
                  have hku : normalize_url u1 = some k' := hk'
                  rw [hk] at hku
                  rw [← Option.some_inj.mp hku, ← hc']
                  exact hnolk
                · intro k' ts' r' hl'
                  rw [← hc'] at hl'
                  exact hsub1 _ _ _ hl'
                · intro k' ts' r' hl' hn'
                  rw [← hc'] at hn'
                  rcases hlk1 : cacheLookup c1 k' with _ | v
                  · exact Or.inl (hexp1 _ _ _ hl' hlk1)
                  · rw [hlk1] at hn'; cases hn'
            | some pe =>
              obtain ⟨result, ev⟩ := pe
              rw [hdisp] at hlock
              simp only [] at hlock
              cases herr : result.error with
              | some e =>
                rw [herr] at hlock
                simp only [Option.some_inj, Prod.mk.injEq] at hlock
                obtain ⟨hres', hc'', _⟩ := hlock
                rw [← hc''] at hc'
                constructor
                · intro k' ts' r' hl'
                  rw [← hc'] at hl'
                  exact Or.inl (hsub1 _ _ _ hl')
                · intro _
                  refine ⟨?_, ?_, ?_⟩
                  · intro k' hk'
                    have hku : normalize_url u1 = some k' := hk'
                    rw [hk] at hku
                    rw [← Option.some_inj.mp hku, ← hc']
                    exact hnolk
                  · intro k' ts' r' hl'
                    rw [← hc'] at hl'
                    exact hsub1 _ _ _ hl'
                  · intro k' ts' r' hl' hn'
                    rw [← hc'] at hn'
                    rcases hlk1 : cacheLookup c1 k' with _ | v
                    · exact Or.inl (hexp1 _ _ _ hl' hlk1)
                    · rw [hlk1] at hn'; cases hn'
              | none =>
                rw [herr] at hlock
                simp only [] at hlock
                cases hput : cache_put tm.tPut c1 u1
                    (build_success platform lang result (tm.tEnd - tm.tStart)) with
                | none => rw [hput] at hlock; simp at hlock
                | some c3 =>
                  rw [hput] at hlock
                  simp only [Option.some_inj, Prod.mk.injEq] at hlock
                  obtain ⟨hres', hc'', _⟩ := hlock
                  have hc3 : c3 = cacheInsert c1 k
                      (tm.tPut, build_success platform lang result (tm.tEnd - tm.tStart)) := by
                    unfold cache_put at hput
                    rw [hk] at hput
                    simp only [Option.map_some', Option.some_inj] at hput
                    exact hput.symm
                  have hsucc : res.success = true := by
                    rw [← hres, ← hres']
                    rfl
                  constructor
                  · intro k' ts' r' hl'
                    rw [← hc', ← hc'', hc3, cacheLookup_insert] at hl'
                    by_cases hkk : k' = k
                    · rw [if_pos hkk] at hl'
                      obtain ⟨_, h2⟩ := Prod.mk.injEq _ _ _ _ |>.mp (Option.some_inj.mp hl')
                      refine Or.inr ⟨?_, hsucc⟩
                      rw [← h2]
                      rfl
                    · rw [if_neg hkk] at hl'
                      exact Or.inl (hsub1 _ _ _ hl')
                  · intro hfail
                    rw [hsucc] at hfail
                    cases hfail

/-- Witness for C2 at a concrete input: a failing YouTube extraction on
an empty cache leaves the request's key uncached. -/
theorem C2_witness :
    cacheLookup ([] : Cache)
      "https://www.youtube.com/watch?v=abcdefghijk".data = none :=
  (((C2_failures_not_cached 3600
      { expandHead := fun _ => none,
        extractYoutube := fun _ => { error := some "boom".data },
        extractTiktok := fun _ => {}, extractFacebook := fun _ => {},
        extractDouyin := fun _ => {} }
      {} [] "https://www.youtube.com/watch?v=abcdefghijk".data none
      { success := false, error := some "boom".data, platform := some "youtube".data,
        cached := false, processing_time := 0 }
      []
      [Ev.extractorCall "youtube".data "https://www.youtube.com/watch?v=abcdefghijk".data]
      (fun k ts r h => by cases h)
      (by decide)).2 rfl).1
    "https://www.youtube.com/watch?v=abcdefghijk".data (by decide))

/-- Claim C3, amended.  Two concurrent requests for the same uncached URL
result in exactly one pipeline execution PROVIDED the first execution
succeeds (and the second waiter reaches its post-lock re-check within the
TTL of the store): the first request (no shortened-URL marker, cache
miss) runs the pipeline once, stores the successful response, and the
second waiter — which raced past its own pre-lock cache miss and enters
the lock afterwards — finds that response in the re-check and returns it
with `cached := true` without dispatching an extractor (its event trace
is empty, so exactly one `extractorCall` happens in total and both
callers hold the same response).  When the first execution fails, nothing
is cached and the second waiter runs the pipeline again. -/
theorem C3_amended_coalescing
    (TTL : Nat) (env : SrvEnv) (tmA tmB : Times) (cache : Cache) (url : Str)
    (lang : Option Str) (k platform : Str) (result : PyDict) (ev : Ev)
    (hvt : strIn "vt.tiktok.com".data url = false)
    (hvm : strIn "vm.tiktok.com".data url = false)
    (hk : normalize_url url = some k)
    (hmiss : cacheLookup cache k = none)
    (hplat : identify_platform url = some platform)
    (hdisp : dispatch env platform url = some (result, ev))
    (herr : result.error = none)
    (hfresh : tmB.tCheck2 - tmA.tPut ≤ TTL) :
    do_transcribe TTL env tmA cache url lang =
      some (build_success platform lang result (tmA.tEnd - tmA.tStart),
            cacheInsert cache k
              (tmA.tPut, build_success platform lang result (tmA.tEnd - tmA.tStart)),
            [ev]) ∧
    locked_section TTL env tmB
        (cacheInsert cache k
          (tmA.tPut, build_success platform lang result (tmA.tEnd - tmA.tStart)))
        url platform lang =
      some ({ build_success platform lang result (tmA.tEnd - tmA.tStart) with
                cached := true },
            cacheInsert cache k
              (tmA.tPut, build_success platform lang result (tmA.tEnd - tmA.tStart)),
            []) := by
  have hexp : expand_shortened_url env url = (url, []) := by
    unfold expand_shortened_url
    simp [hvt, hvm]
  have hgetA : ∀ now, cache_get TTL now cache url = some (none, cache) := by
    intro now
    simp [cache_get, hk, hmiss]
  have hput : cache_put tmA.tPut cache url
      (build_success platform lang result (tmA.tEnd - tmA.tStart)) =
      some (cacheInsert cache k
        (tmA.tPut, build_success platform lang result (tmA.tEnd - tmA.tStart))) := by
    simp [cache_put, hk]
  have hlockA : locked_section TTL env tmA cache url platform lang =
      some (build_success platform lang result (tmA.tEnd - tmA.tStart),
            cacheInsert cache k
              (tmA.tPut, build_success platform lang result (tmA.tEnd - tmA.tStart)),
            [ev]) := by
    unfold locked_section
    simp only [hgetA, hdisp, herr, hput]
  constructor
  · unfold do_transcribe
    simp only [hexp, hgetA, hplat, hlockA, Option.map_some', List.nil_append]
  · have hgetB : cache_get TTL tmB.tCheck2
        (cacheInsert cache k
          (tmA.tPut, build_success platform lang result (tmA.tEnd - tmA.tStart)))
        url =
        some (some (build_success platform lang result (tmA.tEnd - tmA.tStart)),
              cacheInsert cache k
                (tmA.tPut, build_success platform lang result (tmA.tEnd - tmA.tStart))) := by
      have hng : ¬ (tmB.tCheck2 - tmA.tPut > TTL) := by omega
      simp [cache_get, hk, cacheLookup_insert, hng]
    unfold locked_section
    rw [hgetB]

/-- Witness for C3's amended theorem at a concrete input. -/
theorem C3_amended_witness :
    locked_section 3600
        { expandHead := fun _ => none,
          extractYoutube := fun _ =>
            { success := some true, title := some "T".data,
              transcript := some "hello".data, source := some "whisper_audio".data,
              language := some "auto".data },
          extractTiktok := fun _ => {}, extractFacebook := fun _ => {},
          extractDouyin := fun _ => {} }
        { tCheck1 := 20, tStart := 20, tCheck2 := 20, tEnd := 20, tPut := 20 }
        (cacheInsert [] "https://www.youtube.com/watch?v=abcdefghijk".data
          (10, build_success "youtube".data none
            { success := some true, title := some "T".data,
              transcript := some "hello".data, source := some "whisper_audio".data,
              language := some "auto".data } 0))
        "https://www.youtube.com/watch?v=abcdefghijk".data "youtube".data none =
      some ({ build_success "youtube".data none
                { success := some true, title := some "T".data,
                  transcript := some "hello".data, source := some "whisper_audio".data,
                  language := some "auto".data } 0 with cached := true },
            cacheInsert [] "https://www.youtube.com/watch?v=abcdefghijk".data
              (10, build_success "youtube".data none
                { success := some true, title := some "T".data,
                  transcript := some "hello".data, source := some "whisper_audio".data,
                  language := some "auto".data } 0),
            []) :=
  (C3_amended_coalescing 3600
      { expandHead := fun _ => none,
        extractYoutube := fun _ =>
          { success := some true, title := some "T".data,
            transcript := some "hello".data, source := some "whisper_audio".data,
            language := some "auto".data },
        extractTiktok := fun _ => {}, extractFacebook := fun _ => {},
        extractDouyin := fun _ => {} }
      { tCheck1 := 10, tStart := 10, tCheck2 := 10, tEnd := 10, tPut := 10 }
      { tCheck1 := 20, tStart := 20, tCheck2 := 20, tEnd := 20, tPut := 20 }
      [] "https://www.youtube.com/watch?v=abcdefghijk".data none
      "https://www.youtube.com/watch?v=abcdefghijk".data "youtube".data
      { success := some true, title := some "T".data,
        transcript := some "hello".data, source := some "whisper_audio".data,
        language := some "auto".data }
      (Ev.extractorCall "youtube".data "https://www.youtube.com/watch?v=abcdefghijk".data)
      (by decide) (by decide) (by decide) (by decide) (by decide) (by decide)
      (by decide) (by decide)).2

/-! ## Character-level lemmas for the normalisation round trip -/

theorem toNat_ofNat_of_lt (n : Nat) (h : n < 0xD800) : (Char.ofNat n).toNat = n := by
  unfold Char.ofNat
  rw [dif_pos (Or.inl h)]
  rfl

theorem char_toNat_inj {c d : Char} (h : c.toNat = d.toNat) : c = d := by
  have h2 := congrArg Char.ofNat h
  rwa [Char.ofNat_toNat, Char.ofNat_toNat] at h2

theorem char_ne_of_toNat_ne {c d : Char} (h : c.toNat ≠ d.toNat) : c ≠ d :=
  fun he => h (he ▸ rfl)

theorem pyLower_toNat (c : Char) :
    (pyLower c).toNat = if 65 ≤ c.toNat ∧ c.toNat ≤ 90 then c.toNat + 32 else c.toNat := by
  unfold pyLower
  split
  · next h => exact toNat_ofNat_of_lt _ (by omega)
  · rfl

theorem char_eq_iff_toNat {c d : Char} : c = d ↔ c.toNat = d.toNat :=
  ⟨fun h => h ▸ rfl, char_toNat_inj⟩

theorem isSchemeChar_iff (c : Char) : isSchemeChar c = true ↔
    (c.toNat = 43 ∨ c.toNat = 45 ∨ c.toNat = 46 ∨ (48 ≤ c.toNat ∧ c.toNat ≤ 57) ∨
     (65 ≤ c.toNat ∧ c.toNat ≤ 90) ∨ (97 ≤ c.toNat ∧ c.toNat ≤ 122)) := by
  simp only [isSchemeChar, isAsciiAlpha, isAsciiDigit, Bool.or_eq_true,
    Bool.and_eq_true, decide_eq_true_eq, beq_iff_eq, char_eq_iff_toNat]
  rw [show ('+' : Char).toNat = 43 from by decide,
      show ('-' : Char).toNat = 45 from by decide,
      show ('.' : Char).toNat = 46 from by decide]
  tauto

theorem pyLower_pyLower (c : Char) : pyLower (pyLower c) = pyLower c := by
  apply char_toNat_inj
  simp only [pyLower_toNat]
  by_cases h : 65 ≤ c.toNat ∧ c.toNat ≤ 90
  · simp only [if_pos h]
    rw [if_neg (by omega)]
  · simp only [if_neg h]

theorem isAsciiAlpha_pyLower {c : Char} (h : isAsciiAlpha c = true) :
    isAsciiAlpha (pyLower c) = true := by
  simp only [isAsciiAlpha, Bool.or_eq_true, Bool.and_eq_true, decide_eq_true_eq] at h ⊢
  rw [pyLower_toNat]
  split <;> omega

theorem isSchemeChar_pyLower {c : Char} (h : isSchemeChar c = true) :
    isSchemeChar (pyLower c) = true := by
  rw [isSchemeChar_iff] at h ⊢
  rw [pyLower_toNat]
  rcases h with h | h | h | h | h | h <;> (split <;> omega)

theorem pyLower_fix {c : Char} (h : ¬ (65 ≤ c.toNat ∧ c.toNat ≤ 90)) :
    pyLower c = c := by
  unfold pyLower
  rw [if_neg h]

/-- Code-point bounds of a scheme character: in 43-122, avoiding the
codes of `/`, `:`, `?`, `#`, `;`. -/
theorem schemeChar_codes {c : Char} (h : isSchemeChar c = true) :
    43 ≤ c.toNat ∧ c.toNat ≤ 122 ∧ c.toNat ≠ 47 ∧ c.toNat ≠ 58 ∧ c.toNat ≠ 63 ∧
    c.toNat ≠ 35 ∧ c.toNat ≠ 59 := by
  have h2 := (isSchemeChar_iff c).mp h
  rcases h2 with h2 | h2 | h2 | h2 | h2 | h2 <;> omega

theorem char_ne_of_codes {c d : Char} {n : Nat} (hd : d.toNat = n)
    (h : c.toNat ≠ n) : c ≠ d :=
  char_ne_of_toNat_ne (by rw [hd]; exact h)

/-! ## Splitter lemmas -/

theorem takeWhile_all {p : Char → Bool} {l : List Char} (h : ∀ x ∈ l, p x = true) :
    l.takeWhile p = l :=
  List.takeWhile_eq_self_iff.mpr h

theorem dropWhile_all {p : Char → Bool} {l : List Char} (h : ∀ x ∈ l, p x = true) :
    l.dropWhile p = [] :=
  List.dropWhile_eq_nil_iff.mpr h

theorem takeWhile_middle {p : Char → Bool} {a b : List Char} {c : Char}
    (ha : ∀ x ∈ a, p x = true) (hc : p c = false) :
    (a ++ c :: b).takeWhile p = a ∧ (a ++ c :: b).dropWhile p = c :: b := by
  induction a with
  | nil => simp [List.takeWhile_cons, List.dropWhile_cons, hc]
  | cons d a ih =>
    have hd : p d = true := ha d (List.mem_cons_self _ _)
    obtain ⟨ih1, ih2⟩ := ih (fun x hx => ha x (List.mem_cons_of_mem _ hx))
    simp [List.takeWhile_cons, List.dropWhile_cons, hd, ih1, ih2]

theorem takeWhile_append_all {p : Char → Bool} {a b : List Char}
    (ha : ∀ x ∈ a, p x = true) :
    (a ++ b).takeWhile p = a ++ b.takeWhile p ∧
    (a ++ b).dropWhile p = b.dropWhile p := by
  induction a with
  | nil => simp
  | cons d a ih =>
    have hd : p d = true := ha d (List.mem_cons_self _ _)
    obtain ⟨ih1, ih2⟩ := ih (fun x hx => ha x (List.mem_cons_of_mem _ hx))
    simp [List.takeWhile_cons, List.dropWhile_cons, hd, ih1, ih2]

theorem splitOnFirst_not_mem {m : Char} {l : List Char} (h : m ∉ l) :
    splitOnFirst m l = (l, []) := by
  have hall : ∀ x ∈ l, (x != m) = true := by
    intro x hx
    simp only [bne_iff_ne, ne_eq]
    rintro rfl
    exact h hx
  unfold splitOnFirst
  rw [takeWhile_all hall, dropWhile_all hall]
  rfl

theorem splitOnFirst_append {m : Char} {a b : List Char} (h : m ∉ a) :
    splitOnFirst m (a ++ m :: b) = (a, b) := by
  have hall : ∀ x ∈ a, (x != m) = true := by
    intro x hx
    simp only [bne_iff_ne, ne_eq]
    rintro rfl
    exact h hx
  obtain ⟨h1, h2⟩ := takeWhile_middle (c := m) (b := b) hall (by simp)
  unfold splitOnFirst
  rw [h1, h2]
  rfl

theorem dropWhile_head_false {p : Char → Bool} {l : List Char} {y : Char}
    {ys : List Char} (h : l.dropWhile p = y :: ys) : p y = false := by
  induction l with
  | nil => cases h
  | cons c cs ih =>
    rw [List.dropWhile_cons] at h
    by_cases hc : p c = true
    · rw [if_pos hc] at h
      exact ih h
    · rw [if_neg hc] at h
      cases h
      simpa using hc

theorem splitOnFirst_reconstruct {m : Char} {l a b : List Char}
    (h : splitOnFirst m l = (a, b)) :
    (m ∉ l ∧ a = l ∧ b = []) ∨ (l = a ++ m :: b ∧ m ∉ a) := by
  unfold splitOnFirst at h
  obtain ⟨h1, h2⟩ := (Prod.mk.injEq _ _ _ _).mp h
  cases hd : l.dropWhile (fun c => c != m) with
  | nil =>
    left
    have hall := List.dropWhile_eq_nil_iff.mp hd
    refine ⟨?_, ?_, ?_⟩
    · intro hm
      have := hall m hm
      simp at this
    · rw [← h1, takeWhile_all (by intro x hx; exact hall x hx)]
    · rw [← h2, hd]
      rfl
  | cons y ys =>
    right
    have hy : (y != m) = false := dropWhile_head_false (p := fun c => c != m) hd
    have hym : y = m := by simpa using hy
    rw [hym] at hd
    have hl : l = l.takeWhile (fun c => c != m) ++ m :: ys := by
      conv_lhs => rw [← List.takeWhile_append_dropWhile (fun c => c != m) l]
      rw [hd]
    refine ⟨?_, ?_⟩
    · rw [← h1, ← h2, hd]
      simpa using hl
    · intro hm
      rw [← h1] at hm
      have := List.mem_takeWhile_imp hm
      simp at this

/-! ### `rstripSlash` lemmas -/

theorem rstripSlash_cons (c : Char) (cs : List Char) :
    rstripSlash (c :: cs) =
      if rstripSlash cs = [] ∧ c = '/' then [] else c :: rstripSlash cs := rfl

theorem rstripSlash_append (x y : List Char) :
    rstripSlash (x ++ y) =
      if rstripSlash y = [] then rstripSlash x else x ++ rstripSlash y := by
  induction x with
  | nil =>
    by_cases h : rstripSlash y = []
    · rw [List.nil_append, if_pos h, h]
      rfl
    · rw [List.nil_append, if_neg h, List.nil_append]
  | cons c cs ih =>
    by_cases h : rstripSlash y = []
    · rw [if_pos h] at ih ⊢
      rw [List.cons_append, rstripSlash_cons, ih, rstripSlash_cons]
    · rw [if_neg h] at ih ⊢
      rw [List.cons_append, rstripSlash_cons, ih,
        if_neg (by simp [h]), List.cons_append]

theorem rstripSlash_single {c : Char} (h : c ≠ '/') : rstripSlash [c] = [c] := by
  rw [rstripSlash_cons, if_neg (fun hcon => h hcon.2)]
  rfl

theorem rstripSlash_last {x : List Char} {c : Char} (h : c ≠ '/') :
    rstripSlash (x ++ [c]) = x ++ [c] := by
  rw [rstripSlash_append, if_neg (by rw [rstripSlash_single h]; simp),
    rstripSlash_single h]

theorem rstripSlash_idem (l : List Char) :
    rstripSlash (rstripSlash l) = rstripSlash l := by
  induction l with
  | nil => rfl
  | cons c cs ih =>
    rw [rstripSlash_cons]
    by_cases h : rstripSlash cs = [] ∧ c = '/'
    · rw [if_pos h]
      rfl
    · rw [if_neg h, rstripSlash_cons, ih, if_neg h]

theorem rstripSlash_le (l : List Char) : rstripSlash l <+: l := by
  induction l with
  | nil => exact List.prefix_refl _
  | cons c cs ih =>
    rw [rstripSlash_cons]
    by_cases h : rstripSlash cs = [] ∧ c = '/'
    · rw [if_pos h]
      exact List.nil_prefix
    · rw [if_neg h]
      exact List.cons_prefix_cons.mpr ⟨rfl, ih⟩

theorem mem_rstripSlash {x : Char} {l : List Char} (h : x ∈ rstripSlash l) :
    x ∈ l :=
  (rstripSlash_le l).sublist.mem h

theorem rstripSlash_head {l : List Char} (h : rstripSlash l ≠ []) :
    (rstripSlash l).head? = l.head? := by
  cases l with
  | nil => exact absurd rfl h
  | cons c cs =>
    rw [rstripSlash_cons] at h ⊢
    by_cases hc : rstripSlash cs = [] ∧ c = '/'
    · rw [if_pos hc] at h
      simp at h
    · rw [if_neg hc]
      rfl

/-! ### last-slash split lemmas -/

theorem upto_append_after (s : List Char) :
    uptoLastSlash s ++ afterLastSlash s = s := by
  unfold uptoLastSlash afterLastSlash
  rw [← List.reverse_append, List.takeWhile_append_dropWhile, List.reverse_reverse]

theorem slash_not_mem_after (s : List Char) : '/' ∉ afterLastSlash s := by
  unfold afterLastSlash
  intro h
  rw [List.mem_reverse] at h
  have := List.mem_takeWhile_imp h
  simp at this

theorem after_append {x y : List Char} (hy : '/' ∉ y) :
    afterLastSlash (x ++ y) = afterLastSlash x ++ y ∧
    uptoLastSlash (x ++ y) = uptoLastSlash x := by
  have hall : ∀ c ∈ y.reverse, (c != '/') = true := by
    intro c hc
    rw [List.mem_reverse] at hc
    simp only [bne_iff_ne, ne_eq]
    rintro rfl
    exact hy hc
  unfold afterLastSlash uptoLastSlash
  rw [List.reverse_append]
  obtain ⟨h1, h2⟩ := takeWhile_append_all (b := x.reverse) hall
  rw [h1, h2]
  simp

theorem after_of_no_slash {s : List Char} (h : '/' ∉ s) : afterLastSlash s = s := by
  unfold afterLastSlash
  rw [takeWhile_all, List.reverse_reverse]
  intro x hx
  rw [List.mem_reverse] at hx
  simp only [bne_iff_ne, ne_eq]
  rintro rfl
  exact h hx

theorem after_of_upto (s : List Char) : afterLastSlash (uptoLastSlash s) = [] := by
  unfold uptoLastSlash afterLastSlash
  cases hd : s.reverse.dropWhile (fun c => c != '/') with
  | nil => simp
  | cons y ys =>
    have hy : (y != '/') = false := dropWhile_head_false (p := fun c => c != '/') hd
    have hy2 : y = '/' := by simpa using hy
    subst hy2
    rw [List.reverse_reverse]
    simp [List.takeWhile_cons]

theorem upto_ne_nil {s : List Char} (h : '/' ∈ s) : uptoLastSlash s ≠ [] := by
  unfold uptoLastSlash
  intro hc
  rw [List.reverse_eq_nil_iff] at hc
  have := List.dropWhile_eq_nil_iff.mp hc '/' (by rwa [List.mem_reverse])
  simp at this

theorem mem_tail {x : Char} {l : List Char} (h : x ∈ l.tail) : x ∈ l := by
  cases l with
  | nil => cases h
  | cons c cs => exact List.mem_cons_of_mem _ h

theorem mem_takeWhile {p : Char → Bool} {x : Char} {l : List Char}
    (h : x ∈ l.takeWhile p) : x ∈ l :=
  (List.takeWhile_prefix p).sublist.mem h

theorem mem_dropWhile {p : Char → Bool} {x : Char} {l : List Char}
    (h : x ∈ l.dropWhile p) : x ∈ l :=
  (List.dropWhile_suffix p).sublist.mem h

theorem mem_afterLastSlash {x : Char} {s : List Char} (h : x ∈ afterLastSlash s) :
    x ∈ s := by
  have h2 : x ∈ uptoLastSlash s ++ afterLastSlash s := List.mem_append_right _ h
  rwa [upto_append_after] at h2

theorem mem_uptoLastSlash {x : Char} {s : List Char} (h : x ∈ uptoLastSlash s) :
    x ∈ s := by
  have h2 : x ∈ uptoLastSlash s ++ afterLastSlash s := List.mem_append_left _ h
  rwa [upto_append_after] at h2

theorem head?_append_left {x y : List Char} (h : x ≠ []) :
    (x ++ y).head? = x.head? := by
  cases x with
  | nil => exact absurd rfl h
  | cons c cs => rfl

theorem slash_mem_upto {s : List Char} (h : '/' ∈ s) : '/' ∈ uptoLastSlash s := by
  have h2 := h
  rw [← upto_append_after s] at h2
  rcases List.mem_append.mp h2 with h3 | h3
  · exact h3
  · exact absurd h3 (slash_not_mem_after s)

/-! ### Well-formedness of parse results -/

theorem schemeSplit_cases {l sc rest : Str} (h : schemeSplit l = (sc, rest)) :
    (sc = [] ∧ rest = l) ∨
    (schemeOk sc = true ∧ (∀ c ∈ sc, isSchemeChar c = true) ∧
     sc.map pyLower = sc ∧ (∀ c ∈ rest, c ∈ l)) := by
  unfold schemeSplit at h
  rcases hsp : splitOnFirst ':' l with ⟨pre, post⟩
  rw [hsp] at h
  simp only [] at h
  by_cases hc : (l.contains ':' && schemeOk pre) = true
  · rw [if_pos hc] at h
    obtain ⟨h1, h2⟩ := (Prod.mk.injEq _ _ _ _).mp h
    right
    have hok : schemeOk pre = true := by
      simp only [Bool.and_eq_true] at hc
      exact hc.2
    have hall : ∀ c ∈ pre, isSchemeChar c = true := by
      cases pre with
      | nil => intro c hc2; cases hc2
      | cons p ps =>
        intro c hc2
        simp only [schemeOk, Bool.and_eq_true] at hok
        exact List.all_eq_true.mp hok.2 c hc2
    refine ⟨?_, ?_, ?_, ?_⟩
    · rw [← h1]
      cases pre with
      | nil => cases hok
      | cons p ps =>
        simp only [schemeOk, List.map_cons, Bool.and_eq_true] at hok ⊢
        refine ⟨isAsciiAlpha_pyLower hok.1, ?_⟩
        rw [List.all_eq_true] at hok ⊢
        rintro c hc2
        rw [← List.map_cons] at hc2
        obtain ⟨d, hd, rfl⟩ := List.mem_map.mp hc2
        exact isSchemeChar_pyLower (hall d hd)
    · rw [← h1]
      intro c hc2
      obtain ⟨d, hd, rfl⟩ := List.mem_map.mp hc2
      exact isSchemeChar_pyLower (hall d hd)
    · rw [← h1, List.map_map]
      apply List.map_congr_left
      intro c _
      exact pyLower_pyLower c
    · rw [← h2]
      intro c hc2
      unfold splitOnFirst at hsp
      obtain ⟨_, hsp2⟩ := (Prod.mk.injEq _ _ _ _).mp hsp
      rw [← hsp2] at hc2
      exact mem_dropWhile (mem_tail hc2)
  · rw [if_neg hc] at h
    obtain ⟨h1, h2⟩ := (Prod.mk.injEq _ _ _ _).mp h
    exact Or.inl ⟨h1.symm, h2.symm⟩

theorem sanitize_no_trn {u : Str} : ∀ c ∈ sanitize u, isTabOrNewline c = false := by
  intro c hc
  unfold sanitize at hc
  have := (List.mem_filter.mp hc).2
  simpa using this

theorem urlsplit_wf {u : Str} {r : UrlParts} (h : urlsplit u = some r) :
    (∀ c ∈ r.netloc, isNetlocEnd c = false) ∧
    bracketOk r.netloc = true ∧
    ('#' ∉ r.path ∧ '?' ∉ r.path) ∧
    '#' ∉ r.query ∧
    (r.scheme ≠ [] → (schemeOk r.scheme = true ∧
       (∀ c ∈ r.scheme, isSchemeChar c = true) ∧ r.scheme.map pyLower = r.scheme)) ∧
    (r.netloc ≠ [] → (r.path = [] ∨ r.path.head? = some '/')) ∧
    (∀ c ∈ r.netloc, isTabOrNewline c = false) ∧
    (∀ c ∈ r.path, isTabOrNewline c = false) ∧
    (∀ c ∈ r.query, isTabOrNewline c = false) ∧
    r.params = [] := by
  unfold urlsplit at h
  simp only [] at h
  rcases hss : schemeSplit (sanitize u) with ⟨sc, url2⟩
  rw [hss] at h
  simp only [] at h
  have hmem2 : ∀ c ∈ url2, c ∈ sanitize u := by
    rcases schemeSplit_cases hss with ⟨_, hrest⟩ | ⟨_, _, _, hrest⟩
    · rw [hrest]; exact fun c hc => hc
    · exact hrest
  -- name the netloc split
  rcases hnl : (if url2.take 2 = ['/', '/'] then splitnetloc (url2.drop 2)
      else ([], url2)) with ⟨nl, url3⟩
  rw [hnl] at h
  simp only [] at h
  have hnl_no_end : ∀ c ∈ nl, isNetlocEnd c = false := by
    by_cases h2 : url2.take 2 = ['/', '/']
    · rw [if_pos h2] at hnl
      unfold splitnetloc at hnl
      obtain ⟨h3, _⟩ := (Prod.mk.injEq _ _ _ _).mp hnl
      intro c hc
      rw [← h3] at hc
      have := List.mem_takeWhile_imp hc
      simpa using this
    · rw [if_neg h2] at hnl
      obtain ⟨h3, _⟩ := (Prod.mk.injEq _ _ _ _).mp hnl
      rw [← h3]
      intro c hc
      cases hc
  have hnl_mem : ∀ c ∈ nl, c ∈ url2 := by
    by_cases h2 : url2.take 2 = ['/', '/']
    · rw [if_pos h2] at hnl
      unfold splitnetloc at hnl
      obtain ⟨h3, _⟩ := (Prod.mk.injEq _ _ _ _).mp hnl
      intro c hc
      rw [← h3] at hc
      exact (List.mem_of_mem_drop (mem_takeWhile hc))
    · rw [if_neg h2] at hnl
      obtain ⟨h3, _⟩ := (Prod.mk.injEq _ _ _ _).mp hnl
      rw [← h3]
      intro c hc
      cases hc
  have hurl3_mem : ∀ c ∈ url3, c ∈ url2 := by
    by_cases h2 : url2.take 2 = ['/', '/']
    · rw [if_pos h2] at hnl
      unfold splitnetloc at hnl
      obtain ⟨_, h3⟩ := (Prod.mk.injEq _ _ _ _).mp hnl
      intro c hc
      rw [← h3] at hc
      exact List.mem_of_mem_drop (mem_dropWhile hc)
    · rw [if_neg h2] at hnl
      obtain ⟨_, h3⟩ := (Prod.mk.injEq _ _ _ _).mp hnl
      rw [← h3]
      exact fun c hc => hc
  have hurl3_head : nl ≠ [] → url3 = [] ∨ ∃ c, url3.head? = some c ∧ isNetlocEnd c = true := by
    intro hne
    by_cases h2 : url2.take 2 = ['/', '/']
    · rw [if_pos h2] at hnl
      unfold splitnetloc at hnl
      obtain ⟨_, h3⟩ := (Prod.mk.injEq _ _ _ _).mp hnl
      cases hu3 : url3 with
      | nil => exact Or.inl rfl
      | cons y ys =>
        right
        refine ⟨y, rfl, ?_⟩
        rw [← h3] at hu3
        have := dropWhile_head_false (p := fun c => !isNetlocEnd c) hu3
        simpa using this
    · rw [if_neg h2] at hnl
      obtain ⟨h3, _⟩ := (Prod.mk.injEq _ _ _ _).mp hnl
      exact absurd h3.symm hne
  by_cases hbr : bracketOk nl = true
  · rw [if_pos hbr] at h
    rcases hfr : splitOnFirst '#' url3 with ⟨url4, frag⟩
    rw [hfr] at h
    simp only [] at h
    rcases hq : splitOnFirst '?' url4 with ⟨path, query⟩
    rw [hq] at h
    simp only [Option.some_inj] at h
    subst h
    have hu4 : ∀ c ∈ url4, c ∈ url3 ∧ c ≠ '#' := by
      unfold splitOnFirst at hfr
      obtain ⟨h3, _⟩ := (Prod.mk.injEq _ _ _ _).mp hfr
      intro c hc
      rw [← h3] at hc
      refine ⟨mem_takeWhile hc, ?_⟩
      have := List.mem_takeWhile_imp hc
      simpa using this
    have hpath : ∀ c ∈ path, (c ∈ url4 ∧ c ≠ '?') := by
      unfold splitOnFirst at hq
      obtain ⟨h3, _⟩ := (Prod.mk.injEq _ _ _ _).mp hq
      intro c hc
      rw [← h3] at hc
      refine ⟨mem_takeWhile hc, ?_⟩
      have := List.mem_takeWhile_imp hc
      simpa using this
    have hquery : ∀ c ∈ query, c ∈ url4 := by
      unfold splitOnFirst at hq
      obtain ⟨_, h3⟩ := (Prod.mk.injEq _ _ _ _).mp hq
      intro c hc
      rw [← h3] at hc
      exact mem_dropWhile (mem_tail hc)
    refine ⟨hnl_no_end, hbr, ⟨?_, ?_⟩, ?_, ?_, ?_, ?_, ?_, ?_, rfl⟩
    · intro hc
      exact absurd rfl (hu4 _ (hpath _ hc).1).2
    · intro hc
      exact absurd rfl (hpath _ hc).2
    · intro hc
      exact absurd rfl (hu4 _ (hquery _ hc)).2
    · intro hne
      rcases schemeSplit_cases hss with ⟨hsc, _⟩ | ⟨hok, hall, hmap, _⟩
      · exact absurd hsc hne
      · exact ⟨hok, hall, hmap⟩
    · intro hne
      rcases hurl3_head hne with h3 | ⟨c, hc, hcend⟩
      · left
        have : url4 = [] := by
          unfold splitOnFirst at hfr
          obtain ⟨h4, _⟩ := (Prod.mk.injEq _ _ _ _).mp hfr
          rw [← h4, h3]
          rfl
        unfold splitOnFirst at hq
        obtain ⟨h4, _⟩ := (Prod.mk.injEq _ _ _ _).mp hq
        rw [← h4, this]
        rfl
      · cases hu3 : url3 with
        | nil => rw [hu3] at hc; cases hc
        | cons y ys =>
          rw [hu3] at hc
          have hyc : c = y := by
            have h7 : some y = some c := hc
            exact (Option.some_inj.mp h7).symm
          subst hyc
          simp only [isNetlocEnd, Bool.or_eq_true, beq_iff_eq] at hcend
          rcases hcend with (h5 | h5) | h5
          · -- url3 starts with '/': path starts with '/' or is empty
            subst h5
            unfold splitOnFirst at hfr
            obtain ⟨h4, _⟩ := (Prod.mk.injEq _ _ _ _).mp hfr
            rw [hu3] at h4
            rw [List.takeWhile_cons, if_pos (by decide)] at h4
            unfold splitOnFirst at hq
            obtain ⟨h6, _⟩ := (Prod.mk.injEq _ _ _ _).mp hq
            rw [← h4, List.takeWhile_cons, if_pos (by decide)] at h6
            right
            rw [← h6]
            rfl
          · -- url3 starts with '?': path is empty
            subst h5
            unfold splitOnFirst at hfr
            obtain ⟨h4, _⟩ := (Prod.mk.injEq _ _ _ _).mp hfr
            rw [hu3] at h4
            rw [List.takeWhile_cons, if_pos (by decide)] at h4
            unfold splitOnFirst at hq
            obtain ⟨h6, _⟩ := (Prod.mk.injEq _ _ _ _).mp hq
            rw [← h4, List.takeWhile_cons, if_neg (by decide)] at h6
            left
            exact h6.symm
          · -- url3 starts with '#': url4 is empty, so path is empty
            subst h5
            unfold splitOnFirst at hfr
            obtain ⟨h4, _⟩ := (Prod.mk.injEq _ _ _ _).mp hfr
            rw [hu3] at h4
            rw [List.takeWhile_cons, if_neg (by decide)] at h4
            unfold splitOnFirst at hq
            obtain ⟨h6, _⟩ := (Prod.mk.injEq _ _ _ _).mp hq
            rw [← h4] at h6
            left
            exact h6.symm
    · exact fun c hc => sanitize_no_trn c (hmem2 c (hnl_mem c hc))
    · exact fun c hc =>
        sanitize_no_trn c (hmem2 c (hurl3_mem c (hu4 c (hpath c hc).1).1))
    · exact fun c hc =>
        sanitize_no_trn c (hmem2 c (hurl3_mem c (hu4 c (hquery c hc)).1))
  · rw [if_neg hbr] at h
    cases h

/-! ### Round-trip machinery: re-parsing an unparsed URL -/

theorem getLast?_snoc (l : List Char) (a : Char) : (l ++ [a]).getLast? = some a := by
  induction l with
  | nil => rfl
  | cons c cs ih =>
    cases cs with
    | nil => rfl
    | cons d ds =>
      simp only [List.cons_append] at ih ⊢
      rw [List.getLast?_cons_cons]
      exact ih

theorem rstripSlash_no_slash {l : List Char} (h : '/' ∉ l) : rstripSlash l = l := by
  induction l with
  | nil => rfl
  | cons c cs ih =>
    rw [rstripSlash_cons, ih (fun hm => h (List.mem_cons_of_mem _ hm)), if_neg]
    intro hc
    exact h (hc.2 ▸ List.mem_cons_self _ _)

theorem isSchemeChar_not_trn {c : Char} (h : isSchemeChar c = true) :
    isTabOrNewline c = false := by
  have h43 := (schemeChar_codes h).1
  cases htn : isTabOrNewline c with
  | false => rfl
  | true =>
    exfalso
    simp only [isTabOrNewline, Bool.or_eq_true, beq_iff_eq] at htn
    rcases htn with (rfl | rfl) | rfl <;> exact absurd h43 (by decide)

theorem schemeChar_not_c0 {c : Char} (h : isSchemeChar c = true) :
    isC0OrSpace c = false := by
  have h43 := (schemeChar_codes h).1
  simp only [isC0OrSpace, decide_eq_false_iff_not, not_le]
  omega

theorem colon_not_mem_scheme {sc : Str} (h : ∀ c ∈ sc, isSchemeChar c = true) :
    ':' ∉ sc := by
  intro hm
  have := (schemeChar_codes (h ':' hm)).2.2.2.1
  simp at this

theorem contains_mem {l : List Char} {c : Char} : l.contains c = true ↔ c ∈ l := by
  simp [List.contains, List.elem_iff]

theorem sanitize_id {l : Str}
    (h1 : ∀ c, l.head? = some c → isC0OrSpace c = false)
    (h2 : ∀ c ∈ l, isTabOrNewline c = false) : sanitize l = l := by
  unfold sanitize
  have hd : l.dropWhile isC0OrSpace = l := by
    cases l with
    | nil => rfl
    | cons c cs => simp [List.dropWhile_cons, h1 c rfl]
  rw [hd]
  apply List.filter_eq_self.mpr
  intro a ha
  simp [h2 a ha]

theorem schemeSplit_append {sc rest : Str} (hok : schemeOk sc = true)
    (hall : ∀ c ∈ sc, isSchemeChar c = true) :
    schemeSplit (sc ++ ':' :: rest) = (sc.map pyLower, rest) := by
  have hnc : ':' ∉ sc := colon_not_mem_scheme hall
  unfold schemeSplit
  rw [splitOnFirst_append hnc]
  have hcon : (sc ++ ':' :: rest).contains ':' = true :=
    contains_mem.mpr (List.mem_append_right _ (List.mem_cons_self _ _))
  simp only [hcon, hok, Bool.and_self, if_pos]

theorem schemeSplit_slash (rest : Str) :
    schemeSplit ('/' :: rest) = ([], '/' :: rest) := by
  unfold schemeSplit
  rcases hsp : splitOnFirst ':' ('/' :: rest) with ⟨pre, post⟩
  simp only []
  have hpre : schemeOk pre = false := by
    unfold splitOnFirst at hsp
    obtain ⟨hp1, _⟩ := (Prod.mk.injEq _ _ _ _).mp hsp
    have ht : ('/' :: rest).takeWhile (fun c => c != ':') =
        '/' :: rest.takeWhile (fun c => c != ':') := by
      simp [List.takeWhile_cons]
    rw [ht] at hp1
    rw [← hp1]
    simp only [schemeOk]
    rw [show isAsciiAlpha '/' = false by decide]
    exact Bool.false_and _
  rw [hpre, Bool.and_false, if_neg (by simp)]

theorem splitnetloc_append {nl rest : Str}
    (h : ∀ c ∈ nl, isNetlocEnd c = false)
    (hr : rest = [] ∨ ∃ c cs, rest = c :: cs ∧ isNetlocEnd c = true) :
    splitnetloc (nl ++ rest) = (nl, rest) := by
  have hall : ∀ c ∈ nl, (!isNetlocEnd c) = true := by
    intro c hc
    simp [h c hc]
  unfold splitnetloc
  obtain ⟨h1, h2⟩ := takeWhile_append_all (b := rest) hall
  rw [h1, h2]
  rcases hr with rfl | ⟨c, cs, rfl, hc⟩
  · simp
  · simp [List.takeWhile_cons, List.dropWhile_cons, hc]

theorem urlunsplit_eq {sc nl P q : Str} (hnl : nl ≠ [])
    (hP : P = [] ∨ P.head? = some '/') :
    urlunsplit sc nl P q [] =
      (if sc = [] then [] else sc ++ [':']) ++
        ('/' :: '/' :: (nl ++ (P ++ (if q = [] then [] else '?' :: q)))) := by
  have hinner : (if P ≠ [] ∧ P.take 1 ≠ ['/'] then '/' :: P else P) = P := by
    rcases hP with rfl | hh
    · rw [if_neg]
      intro hcon
      exact hcon.1 rfl
    · cases P with
      | nil => rfl
      | cons c cs =>
        have hc : c = '/' := by simpa using hh
        subst hc
        rw [if_neg]
        intro hcon
        exact hcon.2 rfl
  unfold urlunsplit
  simp only []
  rw [if_pos (Or.inl hnl), hinner]
  by_cases hsc : sc = [] <;> by_cases hq : q = [] <;>
    simp [hsc, hq, List.append_assoc]

theorem urlsplit_build {u sc nl P q qt : Str}
    (hsan : sanitize u = u)
    (hss : schemeSplit u = (sc, '/' :: '/' :: (nl ++ (P ++ qt))))
    (hqt : (q = [] ∧ qt = []) ∨ qt = '?' :: q)
    (hnlE : ∀ c ∈ nl, isNetlocEnd c = false)
    (hbr : bracketOk nl = true)
    (hP : P = [] ∨ P.head? = some '/')
    (hPh : '#' ∉ P) (hPq : '?' ∉ P) (hqh : '#' ∉ q) :
    urlsplit u = some { scheme := sc, netloc := nl, path := P, query := q } := by
  unfold urlsplit
  rw [hsan]
  simp only []
  rw [hss]
  simp only []
  have ht2 : ('/' :: '/' :: (nl ++ (P ++ qt))).take 2 = ['/', '/'] := rfl
  rw [if_pos ht2]
  have hd2 : ('/' :: '/' :: (nl ++ (P ++ qt))).drop 2 = nl ++ (P ++ qt) := rfl
  rw [hd2]
  have hrest : P ++ qt = [] ∨
      ∃ c cs, P ++ qt = c :: cs ∧ isNetlocEnd c = true := by
    rcases hP with rfl | hh
    · rcases hqt with ⟨_, rfl⟩ | rfl
      · exact Or.inl rfl
      · exact Or.inr ⟨'?', q, rfl, by decide⟩
    · cases P with
      | nil => cases hh
      | cons c cs =>
        have hc : c = '/' := by simpa using hh
        subst hc
        exact Or.inr ⟨'/', cs ++ qt, rfl, by decide⟩
  rw [splitnetloc_append hnlE hrest]
  simp only []
  rw [if_pos hbr]
  have hhash : '#' ∉ P ++ qt := by
    intro hm
    rcases List.mem_append.mp hm with hm | hm
    · exact hPh hm
    · rcases hqt with ⟨_, rfl⟩ | rfl
      · cases hm
      · rcases List.mem_cons.mp hm with hm | hm
        · cases hm
        · exact hqh hm
  rw [splitOnFirst_not_mem hhash]
  simp only []
  rcases hqt with ⟨hq0, rfl⟩ | rfl
  · rw [List.append_nil, splitOnFirst_not_mem hPq]
    simp only []
    rw [hq0]
  · rw [splitOnFirst_append hPq]

theorem urlsplit_roundtrip {sc nl P q : Str}
    (hsc : sc = [] ∨ (schemeOk sc = true ∧ sc.map pyLower = sc))
    (hscA : ∀ c ∈ sc, isSchemeChar c = true)
    (hnl : nl ≠ [])
    (hnlE : ∀ c ∈ nl, isNetlocEnd c = false)
    (hbr : bracketOk nl = true)
    (hnlT : ∀ c ∈ nl, isTabOrNewline c = false)
    (hP : P = [] ∨ P.head? = some '/')
    (hPh : '#' ∉ P) (hPq : '?' ∉ P)
    (hPT : ∀ c ∈ P, isTabOrNewline c = false)
    (hqh : '#' ∉ q)
    (hqT : ∀ c ∈ q, isTabOrNewline c = false) :
    urlsplit (urlunsplit sc nl P q []) =
      some { scheme := sc, netloc := nl, path := P, query := q } := by
  rw [urlunsplit_eq hnl hP]
  have hqt : (q = [] ∧ (if q = [] then ([] : Str) else '?' :: q) = []) ∨
      (if q = [] then ([] : Str) else '?' :: q) = '?' :: q := by
    by_cases hq : q = []
    · exact Or.inl ⟨hq, if_pos hq⟩
    · exact Or.inr (if_neg hq)
  have hqtT : ∀ c ∈ (if q = [] then ([] : Str) else '?' :: q),
      isTabOrNewline c = false := by
    rcases hqt with ⟨_, he⟩ | he <;> rw [he]
    · intro c hc
      cases hc
    · intro c hc
      rcases List.mem_cons.mp hc with rfl | hc
      · decide
      · exact hqT c hc
  have hbodyT : ∀ c ∈ '/' :: '/' ::
      (nl ++ (P ++ (if q = [] then ([] : Str) else '?' :: q))),
      isTabOrNewline c = false := by
    intro c hc
    rcases List.mem_cons.mp hc with rfl | hc
    · decide
    rcases List.mem_cons.mp hc with rfl | hc
    · decide
    rcases List.mem_append.mp hc with hc | hc
    · exact hnlT c hc
    rcases List.mem_append.mp hc with hc | hc
    · exact hPT c hc
    · exact hqtT c hc
  by_cases hscn : sc = []
  · subst hscn
    rw [if_pos rfl, List.nil_append]
    apply urlsplit_build (q := q) ?_ ?_ hqt hnlE hbr hP hPh hPq hqh
    · apply sanitize_id
      · intro c hc
        cases hc
        decide
      · exact hbodyT
    · exact schemeSplit_slash _
  · rw [if_neg hscn]
    rcases hsc with rfl | ⟨hok, hmap⟩
    · exact absurd rfl hscn
    have hassoc : (sc ++ [':']) ++
        ('/' :: '/' :: (nl ++ (P ++ (if q = [] then ([] : Str) else '?' :: q)))) =
        sc ++ ':' :: ('/' :: '/' ::
          (nl ++ (P ++ (if q = [] then ([] : Str) else '?' :: q)))) := by
      simp [List.append_assoc]
    rw [hassoc]
    apply urlsplit_build (q := q) ?_ ?_ hqt hnlE hbr hP hPh hPq hqh
    · apply sanitize_id
      · intro c hc
        cases sc with
        | nil => exact absurd rfl hscn
        | cons a as =>
          have ha : a = c := by simpa using hc
          rw [← ha]
          exact schemeChar_not_c0 (hscA a (List.mem_cons_self _ _))
      · intro c hc
        rcases List.mem_append.mp hc with hc | hc
        · exact isSchemeChar_not_trn (hscA c hc)
        rcases List.mem_cons.mp hc with rfl | hc
        · decide
        · exact hbodyT c hc
    · rw [schemeSplit_append hok hscA, hmap]

/-! ### `splitparams` lemmas -/

theorem splitparams_join {x p ps : Str} (h : splitparams x = (p, ps)) :
    (ps ≠ [] → p ++ ';' :: ps = x) ∧ (ps = [] → (p = x ∨ p ++ [';'] = x)) := by
  unfold splitparams at h
  by_cases hs : '/' ∈ x
  · rw [if_pos hs] at h
    by_cases ht : ';' ∈ afterLastSlash x
    · rw [if_pos ht] at h
      rcases hsp : splitOnFirst ';' (afterLastSlash x) with ⟨a, b⟩
      rw [hsp] at h
      simp only [] at h
      obtain ⟨h1, h2⟩ := (Prod.mk.injEq _ _ _ _).mp h
      rcases splitOnFirst_reconstruct hsp with ⟨hnm, _, _⟩ | ⟨hre, hna⟩
      · exact absurd ht hnm
      have hx : x = uptoLastSlash x ++ (a ++ ';' :: b) := by
        rw [← hre, upto_append_after]
      constructor
      · intro _
        rw [← h1, ← h2]
        conv_rhs => rw [hx]
        simp [List.append_assoc]
      · intro hb
        right
        rw [← h1]
        conv_rhs => rw [hx]
        rw [h2, hb]
        simp [List.append_assoc]
    · rw [if_neg ht] at h
      obtain ⟨h1, h2⟩ := (Prod.mk.injEq _ _ _ _).mp h
      exact ⟨fun hne => absurd h2.symm hne, fun _ => Or.inl h1.symm⟩
  · rw [if_neg hs] at h
    rcases splitOnFirst_reconstruct h with ⟨_, hp, hq⟩ | ⟨hre, _⟩
    · exact ⟨fun hne => absurd hq hne, fun _ => Or.inl hp⟩
    · constructor
      · intro _
        exact hre.symm
      · intro hb
        right
        rw [hre, hb]

theorem splitparams_no_semi_seg {P : Str} (hW : ';' ∉ afterLastSlash P)
    {p ps : Str} (h : splitparams P = (p, ps)) : p = P ∧ ps = [] := by
  unfold splitparams at h
  by_cases hs : '/' ∈ P
  · rw [if_pos hs, if_neg hW] at h
    obtain ⟨h1, h2⟩ := (Prod.mk.injEq _ _ _ _).mp h
    exact ⟨h1.symm, h2.symm⟩
  · have hP : ';' ∉ P := by
      rw [← after_of_no_slash hs]
      exact hW
    rw [if_neg hs, splitOnFirst_not_mem hP] at h
    obtain ⟨h1, h2⟩ := (Prod.mk.injEq _ _ _ _).mp h
    exact ⟨h1.symm, h2.symm⟩

theorem splitparams_with_params {P pr : Str} (hW : ';' ∉ afterLastSlash P)
    (hsP : '/' ∈ P) (hprS : '/' ∉ pr) {p ps : Str}
    (h : splitparams (P ++ ';' :: pr) = (p, ps)) :
    ps = pr ∧ p ++ ';' :: ps = P ++ ';' :: pr := by
  have hy : '/' ∉ (';' :: pr : Str) := by
    intro hm
    rcases List.mem_cons.mp hm with hm | hm
    · cases hm
    · exact hprS hm
  have hs : '/' ∈ P ++ ';' :: pr := List.mem_append_left _ hsP
  obtain ⟨hta, htu⟩ := after_append (x := P) hy
  have hsem : ';' ∈ afterLastSlash (P ++ ';' :: pr) := by
    rw [hta]
    exact List.mem_append_right _ (List.mem_cons_self _ _)
  unfold splitparams at h
  rw [if_pos hs, if_pos hsem, hta, splitOnFirst_append hW] at h
  simp only [] at h
  obtain ⟨h1, h2⟩ := (Prod.mk.injEq _ _ _ _).mp h
  refine ⟨h2.symm, ?_⟩
  rw [← h1, ← h2, htu, List.append_assoc]
  rw [show afterLastSlash P ++ ';' :: pr = (afterLastSlash P ++ ';' :: pr) from rfl]
  rw [← List.append_assoc, upto_append_after]

theorem splitparams_facts {x p ps : Str} (h : splitparams x = (p, ps)) :
    (∀ c ∈ p, c ∈ x) ∧ (∀ c ∈ ps, c ∈ x) ∧ '/' ∉ ps ∧
    ';' ∉ afterLastSlash p ∧
    (x = [] → p = []) ∧
    (x.head? = some '/' → p.head? = some '/') ∧
    (ps ≠ [] → ('/' ∈ p ∨ ('/' ∉ x ∧ x ≠ []))) := by
  unfold splitparams at h
  by_cases hs : '/' ∈ x
  · rw [if_pos hs] at h
    by_cases ht : ';' ∈ afterLastSlash x
    · rw [if_pos ht] at h
      rcases hsp : splitOnFirst ';' (afterLastSlash x) with ⟨a, b⟩
      rw [hsp] at h
      simp only [] at h
      obtain ⟨h1, h2⟩ := (Prod.mk.injEq _ _ _ _).mp h
      rcases splitOnFirst_reconstruct hsp with ⟨hnm, _, _⟩ | ⟨hre, hna⟩
      · exact absurd ht hnm
      have hax : ∀ c ∈ a, c ∈ afterLastSlash x := by
        intro c hc
        rw [hre]
        exact List.mem_append_left _ hc
      have haS : '/' ∉ a := fun hm => slash_not_mem_after x (hax '/' hm)
      have hup : uptoLastSlash x ≠ [] := upto_ne_nil hs
      rw [← h1, ← h2]
      refine ⟨?_, ?_, ?_, ?_, ?_, ?_, ?_⟩
      · intro c hc
        rcases List.mem_append.mp hc with hc | hc
        · exact mem_uptoLastSlash hc
        · exact mem_afterLastSlash (hax c hc)
      · intro c hc
        apply mem_afterLastSlash
        rw [hre]
        exact List.mem_append_right _ (List.mem_cons_of_mem _ hc)
      · intro hm
        exact slash_not_mem_after x
          (hre ▸ List.mem_append_right _ (List.mem_cons_of_mem _ hm))
      · rw [(after_append haS).1, after_of_upto, List.nil_append]
        exact hna
      · intro hx
        exact absurd hs (by rw [hx]; exact List.not_mem_nil _)
      · intro hxh
        rw [head?_append_left hup]
        rw [← upto_append_after x, head?_append_left hup] at hxh
        exact hxh
      · intro _
        exact Or.inl (List.mem_append_left _ (slash_mem_upto hs))
    · rw [if_neg ht] at h
      obtain ⟨h1, h2⟩ := (Prod.mk.injEq _ _ _ _).mp h
      rw [← h1, ← h2]
      exact ⟨fun c hc => hc, fun c hc => absurd hc (List.not_mem_nil c),
        List.not_mem_nil '/', ht, fun hx => hx, fun hh => hh,
        fun hne => absurd rfl hne⟩
  · rw [if_neg hs] at h
    rcases splitOnFirst_reconstruct h with ⟨hnm, hp, hq⟩ | ⟨hre, hna⟩
    · rw [hp, hq]
      refine ⟨fun c hc => hc, ?_, ?_, ?_, fun hx => hx, fun hh => hh, ?_⟩
      · intro c hc
        cases hc
      · exact List.not_mem_nil '/'
      · rw [after_of_no_slash hs]
        exact hnm
      · intro hne
        exact absurd rfl hne
    · have hpm : ∀ c ∈ p, c ∈ x := by
        intro c hc
        rw [hre]
        exact List.mem_append_left _ hc
      refine ⟨hpm, ?_, ?_, ?_, ?_, ?_, ?_⟩
      · intro c hc
        rw [hre]
        exact List.mem_append_right _ (List.mem_cons_of_mem _ hc)
      · intro hm
        exact hs (hre ▸ List.mem_append_right _ (List.mem_cons_of_mem _ hm))
      · have hpS : '/' ∉ p := fun hm => hs (hpm '/' hm)
        rw [after_of_no_slash hpS]
        exact hna
      · intro hx
        rw [hx] at hre
        simp at hre
      · intro hh
        have : '/' ∈ x := by
          cases x with
          | nil => cases hh
          | cons c cs =>
            have hc : c = '/' := by simpa using hh
            exact hc ▸ List.mem_cons_self _ _
        exact absurd this hs
      · intro _
        refine Or.inr ⟨hs, ?_⟩
        intro hx
        rw [hx] at hre
        simp at hre

/-- Well-formedness of `urlparse` results, extending `urlsplit_wf` across
the `_splitparams` post-processing. -/
theorem urlparse_wf {u : Str} {r : UrlParts} (h : urlparse u = some r) :
    (∀ c ∈ r.netloc, isNetlocEnd c = false) ∧
    bracketOk r.netloc = true ∧
    ('#' ∉ r.path ∧ '?' ∉ r.path) ∧
    ('#' ∉ r.params ∧ '?' ∉ r.params ∧ '/' ∉ r.params) ∧
    '#' ∉ r.query ∧
    (r.scheme ≠ [] → (schemeOk r.scheme = true ∧
       (∀ c ∈ r.scheme, isSchemeChar c = true) ∧ r.scheme.map pyLower = r.scheme)) ∧
    (r.netloc ≠ [] → (r.path = [] ∨ r.path.head? = some '/')) ∧
    (r.scheme ∈ usesParams → ';' ∉ afterLastSlash r.path) ∧
    (r.params ≠ [] → (r.scheme ∈ usesParams ∧ (r.netloc ≠ [] → '/' ∈ r.path))) ∧
    (∀ c ∈ r.netloc, isTabOrNewline c = false) ∧
    (∀ c ∈ r.path, isTabOrNewline c = false) ∧
    (∀ c ∈ r.params, isTabOrNewline c = false) ∧
    (∀ c ∈ r.query, isTabOrNewline c = false) := by
  unfold urlparse at h
  rcases hsp : urlsplit u with _ | r0
  · rw [hsp] at h
    cases h
  rw [hsp] at h
  simp only [Option.map_some'] at h
  obtain ⟨W1, W2, ⟨W3a, W3b⟩, W4, W5, W6, W7, W8, W9, W10⟩ := urlsplit_wf hsp
  by_cases hg : r0.scheme ∈ usesParams ∧ ';' ∈ r0.path
  · rw [if_pos hg] at h
    rcases hsp2 : splitparams r0.path with ⟨p, ps⟩
    rw [hsp2] at h
    simp only [] at h
    obtain ⟨F1, F2, F3, F4, F5, F6, F7⟩ := splitparams_facts hsp2
    rw [← Option.some_inj.mp h]
    refine ⟨W1, W2, ⟨fun hm => W3a (F1 '#' hm), fun hm => W3b (F1 '?' hm)⟩,
      ⟨fun hm => W3a (F2 '#' hm), fun hm => W3b (F2 '?' hm), F3⟩,
      W4, W5, ?_, fun _ => F4, ?_, W7, fun c hc => W8 c (F1 c hc),
      fun c hc => W8 c (F2 c hc), W9⟩
    · intro hn
      rcases W6 hn with hpe | hph
      · exact Or.inl (F5 hpe)
      · exact Or.inr (F6 hph)
    · intro hps
      refine ⟨hg.1, ?_⟩
      intro hn
      rcases F7 hps with hm | ⟨hns, hne⟩
      · exact hm
      rcases W6 hn with hpe | hph
      · exact absurd hpe hne
      · exfalso
        apply hns
        cases hp0 : r0.path with
        | nil =>
          rw [hp0] at hph
          cases hph
        | cons c cs =>
          rw [hp0] at hph
          have hc : c = '/' := by simpa using hph
          rw [hc]
          exact List.mem_cons_self _ _
  · rw [if_neg hg] at h
    rw [← Option.some_inj.mp h]
    refine ⟨W1, W2, ⟨W3a, W3b⟩, ?_, W4, W5, W6, ?_, ?_, W7, W8, ?_, W9⟩
    · rw [W10]
      exact ⟨List.not_mem_nil _, List.not_mem_nil _, List.not_mem_nil _⟩
    · intro hin hm
      exact hg ⟨hin, mem_afterLastSlash hm⟩
    · intro hps
      exact absurd W10 hps
    · rw [W10]
      intro c hc
      cases hc

/-- Normalising a string of the exact shape produced by `urlunsplit` (with a
nonempty netloc and a path whose parameter split reassembles to itself)
returns the string `rstrip`-ed; hence re-normalising a normalised string `s`
with `rstripSlash s = s` is the identity. -/
theorem normalize_fix {U s sc nl P q : Str}
    (hsc : sc = [] ∨ (schemeOk sc = true ∧ sc.map pyLower = sc))
    (hscA : ∀ c ∈ sc, isSchemeChar c = true)
    (hnl : nl ≠ [])
    (hnlE : ∀ c ∈ nl, isNetlocEnd c = false)
    (hbr : bracketOk nl = true)
    (hnlT : ∀ c ∈ nl, isTabOrNewline c = false)
    (hP : P = [] ∨ P.head? = some '/')
    (hPh : '#' ∉ P) (hPq : '?' ∉ P)
    (hPT : ∀ c ∈ P, isTabOrNewline c = false)
    (hqh : '#' ∉ q) (hqT : ∀ c ∈ q, isTabOrNewline c = false)
    (hjoin : sc ∈ usesParams → ∀ p ps, splitparams P = (p, ps) →
        (if ps = [] then p = P else p ++ ';' :: ps = P))
    (hs : s = rstripSlash U)
    (hX : s = urlunsplit sc nl P q []) :
    normalize_url s = some s := by
  have hsplit := urlsplit_roundtrip hsc hscA hnl hnlE hbr hnlT hP hPh hPq hPT hqh hqT
  have hnorm : normalize_url (urlunsplit sc nl P q []) =
      some (rstripSlash (urlunsplit sc nl P q [])) := by
    unfold normalize_url urlparse
    rw [hsplit]
    simp only [Option.map_some']
    by_cases hg : sc ∈ usesParams ∧ ';' ∈ P
    · rcases hsp2 : splitparams P with ⟨p, ps⟩
      have hj := hjoin hg.1 p ps hsp2
      rw [if_pos hg]
      simp only []
      unfold urlunparse
      simp only []
      by_cases hps : ps = []
      · rw [if_pos hps] at hj
        have hcond : ¬ ps ≠ [] := by
          simp [hps]
        rw [if_neg hcond, hj]
      · rw [if_neg hps] at hj
        rw [if_pos hps, hj]
    · rw [if_neg hg]
      unfold urlunparse
      simp only []
      rw [if_neg (fun hcon => hcon rfl)]
  rw [hX, hnorm, ← hX, hs, rstripSlash_idem]

/-- Re-normalising the `rstrip`-ed unparse of a parse result with nonempty
netloc is the identity, provided the string does not end in a dangling `?`
or `;`. -/
theorem normalize_idem_aux {sc nl u0 q s : Str}
    (hsc : sc = [] ∨ (schemeOk sc = true ∧ sc.map pyLower = sc))
    (hscA : ∀ c ∈ sc, isSchemeChar c = true)
    (hnl : nl ≠ [])
    (hnlE : ∀ c ∈ nl, isNetlocEnd c = false)
    (hbr : bracketOk nl = true)
    (hnlT : ∀ c ∈ nl, isTabOrNewline c = false)
    (hu0 : u0 = [] ∨ u0.head? = some '/')
    (hu0h : '#' ∉ u0) (hu0q : '?' ∉ u0)
    (hu0T : ∀ c ∈ u0, isTabOrNewline c = false)
    (hqh : '#' ∉ q) (hqT : ∀ c ∈ q, isTabOrNewline c = false)
    (hjoin : sc ∈ usesParams → ∀ p ps, splitparams u0 = (p, ps) →
        (if ps = [] then p = u0 else p ++ ';' :: ps = u0))
    (hs : s = rstripSlash (urlunsplit sc nl u0 q []))
    (h1 : s.getLast? ≠ some '?') (h2 : s.getLast? ≠ some ';') :
    normalize_url s = some s := by
  have hnsl : '/' ∉ nl := fun hm => absurd (hnlE '/' hm) (by decide)
  have hU := @urlunsplit_eq sc nl u0 q hnl hu0
  by_cases hq : q = []
  · have hU2 : urlunsplit sc nl u0 q [] =
        ((if sc = [] then [] else sc ++ [':']) ++ ['/', '/'] ++ nl) ++ u0 := by
      rw [hU, if_pos hq]
      simp [List.append_assoc]
    by_cases hru : rstripSlash u0 = []
    · have hsA : s = (if sc = [] then [] else sc ++ [':']) ++ ['/', '/'] ++ nl := by
        rw [hs, hU2, rstripSlash_append, if_pos hru, rstripSlash_append,
          rstripSlash_no_slash hnsl, if_neg hnl]
      have hX : s = urlunsplit sc nl [] [] [] := by
        rw [@urlunsplit_eq sc nl [] [] hnl (Or.inl rfl), hsA]
        simp [List.append_assoc]
      refine normalize_fix hsc hscA hnl hnlE hbr hnlT (Or.inl rfl)
        (List.not_mem_nil _) (List.not_mem_nil _) (fun c hc => absurd hc (List.not_mem_nil c))
        (List.not_mem_nil _) (fun c hc => absurd hc (List.not_mem_nil c)) ?_ hs hX
      intro _ p ps hsp
      have h0 : splitparams ([] : Str) = ([], []) := rfl
      rw [h0] at hsp
      obtain ⟨hp1, hp2⟩ := (Prod.mk.injEq _ _ _ _).mp hsp
      rw [← hp1, ← hp2]
      simp
    · have hsB : s = ((if sc = [] then [] else sc ++ [':']) ++ ['/', '/'] ++ nl) ++
          rstripSlash u0 := by
        rw [hs, hU2, rstripSlash_append, if_neg hru]
      have hruh : (rstripSlash u0).head? = some '/' := by
        rcases hu0 with rfl | hh
        · exact absurd rfl hru
        · rw [rstripSlash_head hru]
          exact hh
      have hX : s = urlunsplit sc nl (rstripSlash u0) [] [] := by
        rw [@urlunsplit_eq sc nl (rstripSlash u0) [] hnl (Or.inr hruh), hsB]
        simp [List.append_assoc]
      refine normalize_fix hsc hscA hnl hnlE hbr hnlT (Or.inr hruh)
        (fun hm => hu0h (mem_rstripSlash hm)) (fun hm => hu0q (mem_rstripSlash hm))
        (fun c hc => hu0T c (mem_rstripSlash hc))
        (List.not_mem_nil _) (fun c hc => absurd hc (List.not_mem_nil c)) ?_ hs hX
      intro _ p ps hsp
      obtain ⟨hjn, hje⟩ := splitparams_join hsp
      by_cases hps : ps = []
      · rw [if_pos hps]
        rcases hje hps with he | he
        · exact he
        · exfalso
          apply h2
          rw [hsB, ← he, ← List.append_assoc]
          exact getLast?_snoc _ _
      · rw [if_neg hps]
        exact hjn hps
  · have hU3 : urlunsplit sc nl u0 q [] =
        ((if sc = [] then [] else sc ++ [':']) ++ '/' :: '/' :: (nl ++ u0) ++ ['?']) ++ q := by
      rw [hU, if_neg hq]
      simp [List.append_assoc]
    by_cases hrq : rstripSlash q = []
    · exfalso
      apply h1
      rw [hs, hU3, rstripSlash_append, if_pos hrq, rstripSlash_last (by decide)]
      exact getLast?_snoc _ _
    · have hsC : s = ((if sc = [] then [] else sc ++ [':']) ++ '/' :: '/' ::
          (nl ++ u0) ++ ['?']) ++ rstripSlash q := by
        rw [hs, hU3, rstripSlash_append, if_neg hrq]
      have hX : s = urlunsplit sc nl u0 (rstripSlash q) [] := by
        rw [@urlunsplit_eq sc nl u0 (rstripSlash q) hnl hu0, if_neg hrq, hsC]
        simp [List.append_assoc]
      exact normalize_fix hsc hscA hnl hnlE hbr hnlT hu0 hu0h hu0q hu0T
        (fun hm => hqh (mem_rstripSlash hm)) (fun c hc => hqT c (mem_rstripSlash hc))
        hjoin hs hX

/-- C5 (amended): on every URL whose parse has a nonempty netloc,
`_normalize_url` is idempotent provided the normalised form does not end in
a dangling `?` or `;` marker: re-normalising the cache key it produced
returns that key unchanged. -/
theorem C5_amended_idempotent_on_netloc {u s : Str} {r : UrlParts}
    (hr : urlparse u = some r) (hnl : r.netloc ≠ [])
    (hsn : normalize_url u = some s)
    (h1 : s.getLast? ≠ some '?') (h2 : s.getLast? ≠ some ';') :
    normalize_url s = some s := by
  obtain ⟨We, Wb, ⟨Wph, Wpq⟩, ⟨Wrh, Wrq, Wrs⟩, Wqh, Wsc, W7, W6B, Wpr, WtN, WtP, WtR, WtQ⟩ :=
    urlparse_wf hr
  have hsc : r.scheme = [] ∨
      (schemeOk r.scheme = true ∧ r.scheme.map pyLower = r.scheme) := by
    by_cases h : r.scheme = []
    · exact Or.inl h
    · exact Or.inr ⟨(Wsc h).1, (Wsc h).2.2⟩
  have hscA : ∀ c ∈ r.scheme, isSchemeChar c = true := by
    by_cases h : r.scheme = []
    · rw [h]
      intro c hc
      cases hc
    · exact (Wsc h).2.1
  have hs : s = rstripSlash (urlunparse { r with fragment := [] }) := by
    unfold normalize_url at hsn
    rw [hr] at hsn
    simp only [Option.map_some', Option.some_inj] at hsn
    exact hsn.symm
  have hup : urlunparse { r with fragment := [] } =
      urlunsplit r.scheme r.netloc
        (if r.params ≠ [] then r.path ++ ';' :: r.params else r.path) r.query [] := rfl
  by_cases hpr : r.params = []
  · have hu0 : (if r.params ≠ [] then r.path ++ ';' :: r.params else r.path) = r.path := by
      rw [if_neg (by simp [hpr])]
    rw [hup, hu0] at hs
    refine normalize_idem_aux hsc hscA hnl We Wb WtN (W7 hnl) Wph Wpq WtP Wqh WtQ ?_ hs h1 h2
    intro hin p ps hsp
    obtain ⟨hp, hps⟩ := splitparams_no_semi_seg (W6B hin) hsp
    rw [if_pos hps]
    exact hp
  · obtain ⟨hin, hsl2⟩ := Wpr hpr
    have hsl : '/' ∈ r.path := hsl2 hnl
    have hpne : r.path ≠ [] := by
      intro h0
      rw [h0] at hsl
      cases hsl
    have hph : r.path.head? = some '/' := by
      rcases W7 hnl with h0 | h0
      · exact absurd h0 hpne
      · exact h0
    have hu0 : (if r.params ≠ [] then r.path ++ ';' :: r.params else r.path) =
        r.path ++ ';' :: r.params := if_pos hpr
    rw [hup, hu0] at hs
    refine normalize_idem_aux hsc hscA hnl We Wb WtN ?_ ?_ ?_ ?_ Wqh WtQ ?_ hs h1 h2
    · refine Or.inr ?_
      rw [head?_append_left hpne]
      exact hph
    · intro hm
      rcases List.mem_append.mp hm with hm | hm
      · exact Wph hm
      rcases List.mem_cons.mp hm with hm | hm
      · cases hm
      · exact Wrh hm
    · intro hm
      rcases List.mem_append.mp hm with hm | hm
      · exact Wpq hm
      rcases List.mem_cons.mp hm with hm | hm
      · cases hm
      · exact Wrq hm
    · intro c hc
      rcases List.mem_append.mp hc with hc | hc
      · exact WtP c hc
      rcases List.mem_cons.mp hc with rfl | hc
      · decide
      · exact WtR c hc
    · intro _ p ps hsp
      obtain ⟨hps, hjn⟩ := splitparams_with_params (W6B hin) hsl Wrs hsp
      have hpsne : ps ≠ [] := by
        rw [hps]
        exact hpr
      rw [if_neg hpsne]
      exact hjn

theorem C5_amended_witness :
    normalize_url ("https://x.com/a/b?c=d#frag".data) =
        some ("https://x.com/a/b?c=d".data) ∧
    normalize_url ("https://x.com/a/b?c=d".data) =
        some ("https://x.com/a/b?c=d".data) :=
  ⟨by decide, @C5_amended_idempotent_on_netloc "https://x.com/a/b?c=d#frag".data
    "https://x.com/a/b?c=d".data
    ⟨"https".data, "x.com".data, "/a/b".data, [], "c=d".data, "frag".data⟩
    (by decide) (by decide) (by decide) (by decide) (by decide)⟩

end VT
